import Mathlib

/-!
Shallow embedding of the pass-converter core (google-wallet/pass-converter).

JavaScript strings are modelled as Lean `String` where only equality and
emptiness matter, and as `List Char` (`Str`) where character-level algorithms
(the `.lproj` string-table codec) are verified.  JavaScript numbers reaching
the balance encoder are JSON numbers, modelled as `ℚ`; `NaN` is modelled by
`none` in `Option ℚ`.  Fallible JavaScript code (a thrown exception) is
modelled with `Except`/`Option`.
-/

namespace PassConv

/-- JavaScript object property lookup on an association list
(first binding wins, like repeated assignment reads). -/
def alookup {κ β : Type} [DecidableEq κ] (k : κ) : List (κ × β) → Option β
  | [] => none
  | (k2, v) :: rest => if k2 = k then some v else alookup k rest

/-- Truthiness of a possibly-absent JavaScript string: `undefined` and the
empty string are falsy. -/
def optTruthy : Option String → Bool
  | none => false
  | some s => s ≠ ""

/-- The JavaScript expression `a || b` for possibly-absent strings. -/
def jsOrOpt (a b : Option String) : Option String :=
  match a with
  | some s => if s ≠ "" then some s else b
  | none => b

/-! ## Configuration (src/config.js entries used by the core) -/

structure Config where
  defaultLanguage : String
  emptyValue : String
  defaultOrgName : Option String
  hints : List (String × String)
  deriving Repr

/-! ## Pass.toPkPass: the pass.json description (src/pass/index.js)

Only the display-string fields of the generated `pass.json` object are
modelled; identifiers are copied verbatim and the colour/barcode fields do
not interact with any claim. -/

structure PassCore where
  id : Option String
  title : Option String
  description : Option String
  issuer : Option String
  deriving Repr

structure PkPassJsonOut where
  serialNumber : Option String
  logoText : Option String
  description : Option String
  organizationName : Option String
  formatVersion : Nat
  deriving Repr, DecidableEq

/-- `Pass.toPkPass` pass.json construction:
`serialNumber: this.id, logoText: this.title,
description: this.description || this.title,
organizationName: this.issuer` where the `issuer` getter is
`this._issuer || config.defaultOrgName`. -/
def toPkPassJson (cfg : Config) (p : PassCore) : PkPassJsonOut :=
  { serialNumber := p.id
    logoText := p.title
    description := jsOrOpt p.description p.title
    organizationName := jsOrOpt p.issuer cfg.defaultOrgName
    formatVersion := 1 }

/-! ## Loyalty balance and currency precision (src/pass/types/loyalty.js)

JavaScript numeric semantics used below:
`Math.pow(10, undefined)` is `NaN`; arithmetic on `NaN` yields `NaN`;
`Math.round(NaN)` is `NaN`; none of these operations throws.
`NaN` is modelled as `none : Option ℚ`. -/

/-- The static ISO-4217-derived decimal precision table from loyalty.js;
`undefined` (an unrecognized code) is `none`. -/
def precisionTable : List (String × Nat) :=
  [("AED", 2), ("AFN", 2), ("AMD", 2), ("ANG", 2), ("AOA", 2), ("ARS", 2),
   ("AUD", 2), ("AWG", 2), ("AZN", 2), ("BAM", 2), ("BBD", 2), ("BDT", 2),
   ("BGN", 2), ("BHD", 3), ("BIF", 0), ("BMD", 2), ("BND", 2), ("BOB", 2),
   ("BRL", 2), ("BSD", 2), ("BWP", 2), ("BYR", 0), ("BYN", 2), ("BZD", 2),
   ("CAD", 2), ("CDF", 2), ("CHF", 2), ("CLP", 0), ("CNY", 2), ("COP", 2),
   ("CRC", 2), ("CSK", 2), ("CVE", 2), ("CZK", 2), ("DJF", 0), ("DKK", 2),
   ("DOP", 2), ("DZD", 2), ("EGP", 2), ("ERN", 2), ("ETB", 2), ("EUR", 2),
   ("FJD", 2), ("FKP", 2), ("GBP", 2), ("GEL", 2), ("GHS", 2), ("GIP", 2),
   ("GMD", 2), ("GNF", 0), ("GTQ", 2), ("GWP", 0), ("GYD", 2), ("HKD", 2),
   ("HNL", 2), ("HRK", 2), ("HTG", 2), ("HUF", 2), ("IDR", 2), ("ILS", 2),
   ("INR", 2), ("IQD", 3), ("ISK", 2), ("JMD", 2), ("JOD", 3), ("JPY", 0),
   ("KES", 2), ("KGS", 2), ("KHR", 2), ("KMF", 0), ("KRW", 0), ("KWD", 3),
   ("KYD", 2), ("KZT", 2), ("LAK", 2), ("LBP", 2), ("LKR", 2), ("LRD", 2),
   ("LSL", 2), ("LTL", 2), ("LVL", 2), ("MAD", 2), ("MDL", 2), ("MGA", 0),
   ("MKD", 2), ("MMK", 2), ("MNT", 2), ("MOP", 2), ("MRO", 2), ("MUR", 2),
   ("MVR", 2), ("MWK", 2), ("MXN", 2), ("MYR", 2), ("MZN", 2), ("NAD", 2),
   ("NGN", 2), ("NIO", 2), ("NOK", 2), ("NPR", 2), ("NZD", 2), ("OMR", 3),
   ("PAB", 2), ("PEN", 2), ("PGK", 2), ("PHP", 2), ("PKR", 2), ("PLN", 2),
   ("PYG", 0), ("QAR", 2), ("RON", 2), ("RSD", 2), ("RUB", 2), ("RWF", 0),
   ("SAR", 2), ("SBD", 2), ("SCR", 2), ("SEK", 2), ("SGD", 2), ("SHP", 2),
   ("SLL", 2), ("SOS", 2), ("SRD", 2), ("SSP", 2), ("STD", 2), ("SYP", 2),
   ("SZL", 2), ("THB", 2), ("TJS", 2), ("TND", 3), ("TOP", 2), ("TRY", 2),
   ("TTD", 2), ("TWD", 2), ("TZS", 2), ("UAH", 2), ("UGX", 2), ("USD", 2),
   ("UYU", 2), ("UZS", 2), ("VEF", 2), ("VND", 0), ("VUV", 0), ("WST", 2),
   ("XAF", 0), ("XCD", 2), ("XOF", 0), ("XPF", 0), ("YER", 2), ("ZAR", 2),
   ("ZMK", 2), ("ZMW", 2), ("ZWD", 2)]

/-- `String.prototype.toUpperCase` on the ASCII range (currency codes are
ASCII). -/
def jsToUpperChar (c : Char) : Char :=
  if 97 ≤ c.toNat ∧ c.toNat ≤ 122 then Char.ofNat (c.toNat - 32) else c

/-- Upper-case a string character-wise. -/
def jsToUpper (s : String) : String :=
  String.mk (s.data.map jsToUpperChar)

/-- `precision(currencyCode)` from loyalty.js: index the static table with the
upper-cased code; an absent code yields `undefined` (`none`). -/
def precision (currencyCode : String) : Option Nat :=
  alookup (jsToUpper currencyCode) precisionTable

/-- `Math.pow(10, p)` where `p` may be `undefined` (giving `NaN`). -/
def jsPow10 : Option Nat → Option ℚ
  | some n => some ((10 : ℚ) ^ n)
  | none => none

/-- JavaScript multiplication with `NaN` propagation. -/
def jsMul : Option ℚ → Option ℚ → Option ℚ
  | some a, some b => some (a * b)
  | _, _ => none

/-- JavaScript division with `NaN` propagation (divisors here are powers of
ten, never zero). -/
def jsDiv : Option ℚ → Option ℚ → Option ℚ
  | some a, some b => some (a / b)
  | _, _ => none

/-- `Math.round`: round half towards positive infinity; `NaN` stays `NaN`. -/
def jsRound : Option ℚ → Option ℤ
  | some q => some ⌊q + 1 / 2⌋
  | none => none

/-- `Number.prototype.toFixed(d)`: `undefined` digits count as 0, `NaN`
prints as the string of characters N, a, N.  Values are rounded half away
from the integer grid only through `jsRound`-style floor of the scaled
value plus one half (adequate for the rationals reaching it here). -/
def jsToFixed (x : Option ℚ) (d : Option Nat) : String :=
  match x with
  | none => "NaN"
  | some q =>
    let n := d.getD 0
    let scaled : ℤ := ⌊|q| * (10 : ℚ) ^ n + 1 / 2⌋
    let sign := if q < 0 ∧ scaled ≠ 0 then "-" else ""
    if n = 0 then sign ++ toString scaled
    else
      let digits := toString scaled.toNat
      let digits := String.mk (List.replicate (n + 1 - digits.length) '0') ++ digits
      sign ++ digits.dropRight n ++ "." ++ digits.takeRight n

/-- A balance field extracted from a PKPass (`{label?, value, currencyCode?}`);
the value is a JSON number. -/
structure BalanceField where
  label : Option String
  value : ℚ
  currencyCode : Option String
  deriving Repr, DecidableEq

structure MoneyValue where
  currencyCode : String
  micros : Option ℤ
  deriving Repr, DecidableEq

/-- The single populated slot of a `LoyaltyPointsBalance.balance` object. -/
inductive BalanceValue
  | intVal (n : ℤ)
  | doubleVal (q : ℚ)
  | strVal (s : String)
  | money (m : MoneyValue)
  deriving Repr, DecidableEq

structure GoogleBalance where
  localizedLabelValue : Option String
  balance : BalanceValue
  deriving Repr, DecidableEq

/-- `Loyalty.toGoogleBalanceField`.  For a JSON-number value the
`String(Number(value)) === String(value)` test always holds, so the
no-currency branch chooses `double` when the decimal string contains a
separator (a non-integer rational) and `int` otherwise.  With a currency
code the value becomes a `money` record whose micros are
`Math.round(value * Math.pow(10, precision(code)))` — `NaN` (`none`) when
the precision lookup yields `undefined`.  The localized label is kept as
the raw label string here (its `LocalizedString` wrapping is the separate
`toGoogleLocalizedField`, verified on its own). -/
def toGoogleBalanceField (field : Option BalanceField) : Option GoogleBalance :=
  match field with
  | none => none
  | some f =>
    match f.currencyCode with
    | none =>
      if f.value.den = 1 then
        some { localizedLabelValue := f.label, balance := .intVal f.value.num }
      else
        some { localizedLabelValue := f.label, balance := .doubleVal f.value }
    | some code =>
      some { localizedLabelValue := f.label
             balance := .money
               { currencyCode := code
                 micros := jsRound (jsMul (some f.value) (jsPow10 (precision code))) } }

/-- The decoded `value` of `Loyalty.fromGoogleBalanceField`:
`balance.string || balance.int || balance.double || (money.micros /
10^precision).toFixed(precision)`.  A falsy populated slot (empty string or
zero) falls through the whole chain onto `balance.money.micros` with
`balance.money` undefined — a TypeError, modelled as `none`.
The decoded value is a string for the `string` and `money` slots and a
number otherwise; both are rendered here through the slot's own printing
(`toFixed` for money). -/
def fromGoogleBalanceValue (b : BalanceValue) : Option (ℚ ⊕ String) :=
  match b with
  | .strVal s => if s ≠ "" then some (.inr s) else none
  | .intVal n => if n ≠ 0 then some (.inl (n : ℚ)) else none
  | .doubleVal q => if q ≠ 0 then some (.inl q) else none
  | .money m =>
    some (.inr (jsToFixed
      (jsDiv (m.micros.map fun z => (z : ℚ)) (jsPow10 (precision m.currencyCode)))
      (precision m.currencyCode)))

/-- `Loyalty.fromGoogleBalanceField` restricted to the fields the claims
touch: the extracted currency code and value. -/
def fromGoogleBalanceField (g : Option GoogleBalance) :
    Option (Option String × Option (ℚ ⊕ String)) :=
  match g with
  | none => none
  | some f =>
    let currencyCode := match f.balance with
      | .money m => some m.currencyCode
      | _ => none
    some (currencyCode, fromGoogleBalanceValue f.balance)

/-! ## Variant selection on archive decode (src/pass/index.js createPassForType) -/

inductive GPassType
  | generic
  | loyalty
  | event
  | offer
  | flight
  | transit
  deriving Repr, DecidableEq

/-- Each variant's PKPass content-field key. -/
def pkpassContentFieldsOf : GPassType → String
  | .generic => "generic"
  | .loyalty => "storeCard"
  | .event => "eventTicket"
  | .offer => "coupon"
  | .flight => "boardingPass"
  | .transit => "boardingPass"

/-- Each variant's PKPass transit-type discriminator list (`undefined` for
variants without one).  Flight declares only the air type; Transit declares
the keys of its `APPLE_TRANSIT_TYPES` enum, in declaration order. -/
def pkpassTransitTypesOf : GPassType → Option (List String)
  | .flight => some ["PKTransitTypeAir"]
  | .transit =>
      some ["PKTransitTypeTrain", "PKTransitTypeBoat", "PKTransitTypeBus",
            "PKTransitTypeGeneric"]
  | _ => none

/-- The fixed variant priority order of `createPassForType`. -/
def passClasses : List GPassType :=
  [.generic, .loyalty, .event, .offer, .flight, .transit]

/-- `createPassForType(filter)`: instantiate the first class passing the
filter; an empty filter result is `new undefined()`, a crash, modelled as
`none`. -/
def createPassForType (f : GPassType → Bool) : Option GPassType :=
  (passClasses.filter f).head?

/-- The slice of a parsed pass.json archive description that variant
selection reads: which content-field buckets are present, and each present
bucket's optional `transitType` string. -/
structure PkPassDescription where
  buckets : List (String × Option String)
  deriving Repr

/-- The filter of `Pass.fromPkPass`:
`json[cls.pkpassContentFields] !== undefined && (!cls.pkpassTransitTypes ||
cls.pkpassTransitTypes.indexOf(json[cls.pkpassContentFields].transitType) != -1)`.
`indexOf(undefined)` over a list of strings is -1. -/
def pkPassVariantPred (json : PkPassDescription) (cls : GPassType) : Bool :=
  (alookup (pkpassContentFieldsOf cls) json.buckets).isSome &&
  (match pkpassTransitTypesOf cls with
   | none => true
   | some ts =>
     match (alookup (pkpassContentFieldsOf cls) json.buckets).join with
     | some tt => ts.contains tt
     | none => false)

/-- Variant selection of `Pass.fromPkPass`. -/
def fromPkPassVariant (json : PkPassDescription) : Option GPassType :=
  createPassForType (pkPassVariantPred json)

/-! ## Localized strings and Pass.toGoogle (src/pass/index.js)

`this.strings` maps a language code to a table from default-language content
to translated content; both levels are JavaScript objects, modelled as
association lists. -/

/-- A PKPass content field `{key, label, value}` with the optional date/time
style flags. -/
structure ContentField where
  key : String
  label : Option String
  value : String
  dateStyle : Bool
  timeStyle : Bool
  deriving Repr, DecidableEq

/-- The slice of a Pass consumed by `toGoogle`. -/
structure PassCtx where
  strings : List (String × List (String × String))
  frontContent : List (List ContentField)
  backContent : List ContentField
  deriving Repr

/-- The `defaultLanguage` getter: the first language of `strings` when
`strings` is non-empty and has no entry for the configured default language,
otherwise the configured default. -/
def defaultLanguageOf (cfg : Config) (st : PassCtx) : String :=
  if !st.strings.isEmpty && (alookup cfg.defaultLanguage st.strings).isNone then
    ((st.strings.head?).map Prod.fst).getD cfg.defaultLanguage
  else
    cfg.defaultLanguage

/-- `String.prototype.trim`: strip leading and trailing whitespace. -/
def jsTrim (s : String) : String :=
  String.mk (((s.data.dropWhile Char.isWhitespace).reverse.dropWhile
    Char.isWhitespace).reverse)

structure TranslatedString where
  language : String
  value : String
  deriving Repr, DecidableEq

structure LocalizedString where
  defaultValue : TranslatedString
  translatedValues : Option (List TranslatedString)
  deriving Repr, DecidableEq

/-- The inner `getString` of `toGoogleLocalizedField`.  The translation is
used only when truthy (a looked-up empty string falls back to the raw
value); an `undefined` or blank-after-trim value becomes the configured
empty-value placeholder (`undefined` is `none` here). -/
def getString (cfg : Config) (st : PassCtx) (language : String)
    (value : Option String) : TranslatedString :=
  match value with
  | none => { language := language, value := cfg.emptyValue }
  | some v =>
    let v :=
      match alookup language st.strings with
      | some tbl =>
        match alookup v tbl with
        | some t => if t ≠ "" then t else v
        | none => v
      | none => v
    { language := language
      value := if jsTrim v = "" then cfg.emptyValue else v }

/-- `Pass.toGoogleLocalizedField(value)`: one default-language value plus
the per-language values differing from it; the list is `undefined` when the
filter leaves nothing. -/
def toGoogleLocalizedField (cfg : Config) (st : PassCtx) (value : Option String) :
    LocalizedString :=
  let defaultValue := getString cfg st (defaultLanguageOf cfg st) value
  let translatedValues :=
    (st.strings.map fun p => getString cfg st p.1 value).filter
      fun f => f.value ≠ defaultValue.value
  { defaultValue := defaultValue
    translatedValues := if translatedValues.length > 0 then some translatedValues else none }

/-- The inner `toLocalizedField` of `toGoogle`: plain values go through
`toGoogleLocalizedField`; date/time-styled values are re-formatted per
language by `fromPkPassDateTimeField`, whose `Date`/locale behaviour is the
environment's and is abstracted as `fmt`. -/
def toLocalizedField (cfg : Config) (st : PassCtx)
    (fmt : ContentField → String → String) (field : ContentField) : LocalizedString :=
  if !field.dateStyle && !field.timeStyle then
    toGoogleLocalizedField cfg st (some field.value)
  else
    let defaultValue : TranslatedString :=
      { language := defaultLanguageOf cfg st
        value := fmt field (defaultLanguageOf cfg st) }
    let translatedValues :=
      (st.strings.map fun p =>
        ({ language := p.1, value := fmt field p.1 } : TranslatedString)).filter
        fun f => f.value ≠ defaultValue.value
    { defaultValue := defaultValue
      translatedValues := if translatedValues.length > 0 then some translatedValues else none }

/-- The row-splitting loop of `toGoogle`:
`while (row.length > 3) rows.push(row.splice(0, 3)); if (row.length > 0)
rows.push(row);` with `rows` as the accumulator. -/
def chunkRowAux (acc : List (List ContentField)) (row : List ContentField) :
    List (List ContentField) :=
  if row.length > 3 then chunkRowAux (acc ++ [row.take 3]) (row.drop 3)
  else if row.length > 0 then acc ++ [row]
  else acc
  termination_by row.length
  decreasing_by simp [List.length_drop]; omega

/-- The spec's description of row packing: repeatedly slice off groups of up
to 3 items, in order, until the row is exhausted. -/
def chunksSpec (row : List ContentField) : List (List ContentField) :=
  if row.isEmpty then [] else row.take 3 :: chunksSpec (row.drop 3)
  termination_by row.length
  decreasing_by
    simp [List.length_drop]
    cases row
    case nil => simp_all [List.isEmpty]
    case cons => simp

structure TextModule where
  id : String
  localizedHeader : Option LocalizedString
  localizedBody : LocalizedString
  deriving Repr, DecidableEq

/-- A `CardRowTemplateInfo`, reduced to the `textModulesData` keys its
field-path references name. -/
inductive CardRowTemplate
  | oneItem (a : String)
  | twoItems (a b : String)
  | threeItems (a b c : String)
  deriving Repr, DecidableEq

/-- The switch over `row.length` in `toGoogle`; the default branch throws
(`none`). -/
def templateInfo (row : List ContentField) : Option CardRowTemplate :=
  match row with
  | [a] => some (.oneItem a.key)
  | [a, b] => some (.twoItems a.key b.key)
  | [a, b, c] => some (.threeItems a.key b.key c.key)
  | _ => none

structure InfoColumn where
  localizedLabel : LocalizedString
  localizedValue : LocalizedString
  deriving Repr, DecidableEq

/-- The pass-object parts of the `toGoogle` output that the claims read. -/
structure GoogleOut where
  textModulesData : List TextModule
  cardRowTemplateInfos : List (Option CardRowTemplate)
  infoModuleData : Option (List InfoColumn)
  deriving Repr

/-- `Pass.toGoogle` (the shared base): `textModulesData` from the original
front content, then the in-place repacking of `frontContent` into rows of at
most 3 items, the first 3 packed rows as card row templates, and
`infoModuleData` from the back content (absent when there is none).
A header label is wrapped only when truthy (`field.label ? ... : field.label`).
-/
def toGoogleBase (cfg : Config) (fmt : ContentField → String → String)
    (st : PassCtx) : GoogleOut :=
  let textModulesData := st.frontContent.flatten.map fun f =>
    { id := f.key
      localizedHeader :=
        match f.label with
        | some l => if l ≠ "" then some (toGoogleLocalizedField cfg st (some l)) else none
        | none => none
      localizedBody := toLocalizedField cfg st fmt f }
  let packed := (st.frontContent.map (chunkRowAux [])).flatten
  let infoModuleData :=
    if st.backContent.isEmpty then none
    else some (st.backContent.map fun f =>
      ({ localizedLabel := toGoogleLocalizedField cfg st f.label
         localizedValue := toLocalizedField cfg st fmt f } : InfoColumn))
  { textModulesData := textModulesData
    cardRowTemplateInfos := (packed.take 3).map templateInfo
    infoModuleData := infoModuleData }

/-- `Generic.toGoogle`: move the whole back content into the front content
as one more row, dropping empty rows, clear the back content, then run the
base conversion.  (The generic-specific class/object field updates after the
base call do not touch the modelled output.) -/
def genericToGoogle (cfg : Config) (fmt : ContentField → String → String)
    (st : PassCtx) : GoogleOut :=
  toGoogleBase cfg fmt
    { st with
      frontContent := (st.frontContent ++ [st.backContent]).filter fun row => row.length > 0
      backContent := [] }

/-! ## Hint resolution (src/pass/index.js hintedPkPassField) -/

/-- The mutable pass state the hint resolver reads and writes: the content
plus the `_hinted` cache keyed by the (possibly undefined) configured PKPass
field name. -/
structure HintPass where
  frontContent : List (List ContentField)
  backContent : List ContentField
  hinted : List (Option String × ContentField)
  deriving Repr

/-- The `matches` test: `field.key === pkpassFieldName` (never true when the
hint name had no configured field name, since keys are strings). -/
def hintMatches (fieldName : Option String) (f : ContentField) : Bool :=
  fieldName = some f.key

/-- `Pass.hintedPkPassField(hintName)`.  On a cache hit the state is
untouched.  Otherwise every front row is filtered through `matches` (each
match is assigned to the cache, so the last match in front-then-back order
is what the cache and the return value hold), empty rows are dropped, the
back content is filtered the same way, and the cache gains the match, if
any. -/
def hintedPkPassField (hints : List (String × String)) (hintName : String)
    (st : HintPass) : Option ContentField × HintPass :=
  let fieldName := alookup hintName hints
  match alookup fieldName st.hinted with
  | some f => (some f, st)
  | none =>
    let found :=
      ((st.frontContent.flatten ++ st.backContent).filter (hintMatches fieldName)).getLast?
    let st :=
      { frontContent :=
          (st.frontContent.map fun row => row.filter fun f => !hintMatches fieldName f).filter
            fun row => row.length > 0
        backContent := st.backContent.filter fun f => !hintMatches fieldName f
        hinted :=
          match found with
          | some f => st.hinted ++ [(fieldName, f)]
          | none => st.hinted }
    (found, st)

/-! ## Dispatch fallback protocol (src/app.js encodeJwt, pkPassToGoogle)

The signed token produced by `jwt.sign` depends on the service-account key;
it is abstracted as a function `sign` from the payload to the token text.
The two Wallet API create calls are remote effects; their success is
abstracted as two booleans and the calls themselves are recorded in the
outcome.  `console.log`/`console.error` output is recorded as log events. -/

/-- JavaScript string as a character list. -/
abbrev Str := List Char

/-- The wallet class of the payload (its JSON content is opaque to the
fallback logic). -/
structure GClass where
  data : List (String × String)
  deriving Repr, DecidableEq

/-- The wallet object of the payload: its id plus all remaining fields. -/
structure GObject where
  id : String
  rest : List (String × String)
  deriving Repr, DecidableEq

/-- The class+object payload; `classes` is the single-element class array,
`none` once deleted. -/
structure GPayload where
  classes : Option GClass
  object : GObject
  deriving Repr, DecidableEq

/-- `encodeJwt(payload, checkLength)`: sign, then throw
`Encoded jwt too large` (carrying the length) if the check is on and the
token is longer than 1800 characters. -/
def encodeJwt (sign : GPayload → Str) (payload : GPayload) (checkLength : Bool) :
    Except Nat Str :=
  let token := sign payload
  if checkLength && decide (token.length > 1800) then .error token.length
  else .ok token

/-- A Wallet API create call issued during the fallback, with the data it
carried (`googlePass[prefix+Classes][0]`, possibly already deleted). -/
inductive ApiCall
  | createClass (c : Option GClass)
  | createObject (o : GObject)
  deriving Repr, DecidableEq

/-- Console output along the fallback path. -/
inductive LogEvent
  | jwtTooLarge (n : Nat)
  | classCreateError
  | objectCreateError
  deriving Repr, DecidableEq

structure ConvertOutcome where
  token : Str
  calls : List ApiCall
  logs : List LogEvent
  deriving Repr, DecidableEq

/-- `{ id: googlePass[...Objects][0].id }` — strip all but the id. -/
def stripToId (o : GObject) : GObject :=
  { id := o.id, rest := [] }

/-- The token-production logic of `pkPassToGoogle` (after the pass itself
has been converted): try the full payload; on the size error, log it, issue
the class create call (its failure only logged), delete the class and retry;
on a second size error, log it, issue the object create call (its failure
only logged), reduce the object to its id and encode without the size
check. -/
def pkPassToGoogleToken (sign : GPayload → Str) (classOk objOk : Bool)
    (gp : GPayload) : Except Nat ConvertOutcome :=
  match encodeJwt sign gp true with
  | .ok t => .ok { token := t, calls := [], logs := [] }
  | .error n1 =>
    let logs1 := [LogEvent.jwtTooLarge n1] ++ if classOk then [] else [.classCreateError]
    let gp1 : GPayload := { gp with classes := none }
    match encodeJwt sign gp1 true with
    | .ok t => .ok { token := t, calls := [.createClass gp.classes], logs := logs1 }
    | .error n2 =>
      let logs2 := logs1 ++ [LogEvent.jwtTooLarge n2] ++
        if objOk then [] else [.objectCreateError]
      let gp2 : GPayload := { gp1 with object := stripToId gp1.object }
      (encodeJwt sign gp2 false).map fun t =>
        { token := t
          calls := [.createClass gp.classes, .createObject gp1.object]
          logs := logs2 }

/-! ## The .lproj string-table codec (src/pass/utils.js Lproj)

`export` is `JSON.stringify(obj).replace(/":"/g, '" = "').replace(/",/g,
'";\n').slice(1, -1) + ';'`; `parse` strips comments, splits on the
quote-semicolon line terminator, cuts each line after its first quote,
removes a first newline and splits on the quote-delimited ` = ` separator.
All of it is character-exact on `Str`. -/

/-- One escaped character of `JSON.stringify` string output. -/
def jsonEscapeChar (c : Char) : Str :=
  if c = '"' then ['\\', '"']
  else if c = '\\' then ['\\', '\\']
  else if c = '\n' then ['\\', 'n']
  else if c = '\r' then ['\\', 'r']
  else if c = '\t' then ['\\', 't']
  else if c = '\x08' then ['\\', 'b']
  else if c = '\x0c' then ['\\', 'f']
  else if c.toNat < 32 then
    ['\\', 'u', '0', '0',
     if c.toNat / 16 < 10 then Char.ofNat (48 + c.toNat / 16)
     else Char.ofNat (87 + c.toNat / 16),
     if c.toNat % 16 < 10 then Char.ofNat (48 + c.toNat % 16)
     else Char.ofNat (87 + c.toNat % 16)]
  else [c]

/-- A `JSON.stringify` double-quoted string literal. -/
def jsonQuote (s : Str) : Str :=
  '"' :: (s.map jsonEscapeChar).flatten ++ ['"']

/-- `JSON.stringify` of a string-to-string object. -/
def jsonStringifyObj (entries : List (Str × Str)) : Str :=
  '{' :: List.intercalate [',']
    (entries.map fun e => jsonQuote e.1 ++ ':' :: jsonQuote e.2) ++ ['}']

/-- `String.prototype.replace` with a global literal pattern: leftmost
occurrences, scanning resumes after each replacement. -/
def replaceAll (pat rep : Str) : Str → Str
  | [] => []
  | c :: rest =>
    if pat ≠ [] ∧ pat.isPrefixOf (c :: rest) then
      rep ++ replaceAll pat rep (rest.drop (pat.length - 1))
    else
      c :: replaceAll pat rep rest
  termination_by s => s.length
  decreasing_by all_goals (simp [List.length_drop]; try omega)

/-- `String.prototype.split` with a literal separator. -/
def splitOnStr (sep : Str) : Str → List Str
  | [] => [[]]
  | c :: rest =>
    if sep ≠ [] ∧ sep.isPrefixOf (c :: rest) then
      [] :: splitOnStr sep (rest.drop (sep.length - 1))
    else
      match splitOnStr sep rest with
      | [] => [[c]]
      | l :: ls => (c :: l) :: ls
  termination_by s => s.length
  decreasing_by all_goals (simp [List.length_drop]; try omega)

/-- `line.slice(line.indexOf('"') + 1)`: everything after the first double
quote (the whole line when there is none, since `indexOf` is -1). -/
def dropThroughFirstQuote (s : Str) : Str :=
  match s.findIdx? (· = '"') with
  | some i => s.drop (i + 1)
  | none => s

/-- `.replace(/\n/, '')`: remove the first newline only. -/
def removeFirstNewline : Str → Str
  | [] => []
  | c :: rest => if c = '\n' then rest else c :: removeFirstNewline rest

mutual

/-- Model of the external `strip-comments` dependency (code mode): removes
`//` line comments (keeping the newline) and `/* */` block comments, and
passes double-quoted string literals through untouched. -/
def stripC : Str → Str
  | [] => []
  | c :: rest =>
    if c = '"' then c :: stripInStr rest
    else if c = '/' ∧ rest.head? = some '/' then stripLineComment (rest.drop 1)
    else if c = '/' ∧ rest.head? = some '*' then stripBlockComment (rest.drop 1)
    else c :: stripC rest
  termination_by s => s.length
  decreasing_by all_goals (simp [List.length_drop]; try omega)

/-- `strip-comments` inside a double-quoted string literal: backslash
escapes protect the next character, a quote ends the literal. -/
def stripInStr : Str → Str
  | [] => []
  | c :: rest =>
    if c = '\\' then
      match rest with
      | [] => [c]
      | d :: rest2 => c :: d :: stripInStr rest2
    else if c = '"' then c :: stripC rest
    else c :: stripInStr rest
  termination_by s => s.length
  decreasing_by all_goals (simp; try omega)

/-- `strip-comments` inside a `//` comment: drop until the newline. -/
def stripLineComment : Str → Str
  | [] => []
  | c :: rest => if c = '\n' then c :: stripC rest else stripLineComment rest
  termination_by s => s.length
  decreasing_by all_goals (simp; try omega)

/-- `strip-comments` inside a `/* */` comment: drop through the closer. -/
def stripBlockComment : Str → Str
  | [] => []
  | c :: rest =>
    if c = '*' ∧ rest.head? = some '/' then stripC (rest.drop 1)
    else stripBlockComment rest
  termination_by s => s.length
  decreasing_by all_goals (simp [List.length_drop]; try omega)

end

/-- `Lproj.export(obj)`. -/
def lprojExport (entries : List (Str × Str)) : Str :=
  ((replaceAll ['"', ','] ['"', ';', '\n']
      (replaceAll ['"', ':', '"'] ['"', ' ', '=', ' ', '"']
        (jsonStringifyObj entries))).drop 1).dropLast ++ [';']

/-- `Lproj.parse(s)` as the entry list handed to `Object.fromEntries`
(lines whose separator split yields fewer than two parts are dropped; a
longer split contributes its first two parts, exactly as `fromEntries`
reads an entry array). -/
def lprojParse (s : Str) : List (Str × Str) :=
  ((splitOnStr ['"', ';'] (stripC s)).map fun line =>
      splitOnStr ['"', ' ', '=', ' ', '"']
        (removeFirstNewline (dropThroughFirstQuote line))).filterMap
    fun parts =>
      match parts with
      | a :: b :: _ => some (a, b)
      | _ => none

/-! Closed forms of the intermediate texts of the `.lproj` codec, and the
key/value preconditions under which the round-trip holds. -/

/-- A character that `JSON.stringify` leaves unescaped and that cannot open
or close a string-literal or separator in the exported format: not a double
quote, not a backslash, not a control character (so in particular not a
newline). -/
abbrev goodStr (s : Str) : Prop := ∀ c ∈ s, c ≠ '"' ∧ c ≠ '\\' ∧ 32 ≤ c.toNat

/-- A key survives the round-trip when its characters are good, it is not
the single character colon (which the `":"`-to-`" = "` rewrite would eat),
and it does not begin with a comma or semicolon (which the `",` rewrite or
the `";` line split would misparse). -/
abbrev goodKey (k : Str) : Prop :=
  goodStr k ∧ k ≠ [':'] ∧ k.head? ≠ some ',' ∧ k.head? ≠ some ';'

/-- A value survives the round-trip when its characters are good and it
does not begin with a comma or semicolon. -/
abbrev goodVal (v : Str) : Prop :=
  goodStr v ∧ v.head? ≠ some ',' ∧ v.head? ≠ some ';'

abbrev goodEntry (e : Str × Str) : Prop := goodKey e.1 ∧ goodVal e.2

/-- One entry of the unescaped `JSON.stringify` body. -/
def jsonRaw (e : Str × Str) : Str :=
  '"' :: e.1 ++ '"' :: ':' :: '"' :: e.2 ++ ['"']

/-- The `JSON.stringify` body between the braces. -/
def jsonBody : List (Str × Str) → Str
  | [] => []
  | [e] => jsonRaw e
  | e :: es => jsonRaw e ++ ',' :: jsonBody es

/-- An exported line without its closing quote. -/
def lineHead (e : Str × Str) : Str :=
  '"' :: e.1 ++ '"' :: ' ' :: '=' :: ' ' :: '"' :: e.2

/-- A full exported line. -/
def lprojLine (e : Str × Str) : Str := lineHead e ++ ['"']

/-- The text after the `":"`-to-`" = "` rewrite, still comma-separated. -/
def eqBody : List (Str × Str) → Str
  | [] => []
  | [e] => lprojLine e
  | e :: es => lprojLine e ++ ',' :: eqBody es

/-- The exported body: lines terminated by quote-semicolon, separated by
newlines. -/
def lprojBody : List (Str × Str) → Str
  | [] => []
  | [e] => lprojLine e
  | e :: es => lprojLine e ++ ';' :: '\n' :: lprojBody es

/-- The parts that the quote-semicolon split produces after the first
line: each later line keeps its leading newline. -/
def partsAux : List (Str × Str) → List Str
  | [] => [[]]
  | e :: es => ('\n' :: lineHead e) :: partsAux es

/-! # Helper lemmas -/

theorem jsMul_none_right (x : Option ℚ) : jsMul x none = none := by
  cases x <;> rfl

theorem jsDiv_none_right (x : Option ℚ) : jsDiv x none = none := by
  cases x <;> rfl

/-- The accumulator loop of `toGoogle` row packing computes the spec's
take-3/drop-3 chunking. -/
theorem chunkRowAux_eq_chunksSpec (n : Nat) :
    ∀ row : List ContentField, row.length ≤ n →
      ∀ acc, chunkRowAux acc row = acc ++ chunksSpec row := by
  induction n with
  | zero =>
    intro row hlen acc
    have : row = [] := List.eq_nil_of_length_eq_zero (Nat.le_zero.mp hlen)
    subst this
    rw [chunkRowAux, chunksSpec]
    simp
  | succ n ih =>
    intro row hlen acc
    by_cases h3 : row.length > 3
    · have hrow : ¬row.isEmpty := by
        cases row
        · simp at h3
        · simp
      rw [chunkRowAux, chunksSpec]
      simp only [h3, if_true, hrow, if_false]
      rw [ih (row.drop 3) (by simp [List.length_drop]; omega) (acc ++ [row.take 3])]
      simp
    · by_cases h0 : row.length > 0
      · have hrow : ¬row.isEmpty := by
          cases row
          · simp at h0
          · simp
        have hdrop : row.drop 3 = [] := List.drop_eq_nil_of_le (by omega)
        have htake : row.take 3 = row := List.take_of_length_le (by omega)
        rw [chunkRowAux, chunksSpec]
        simp [h3, h0, hrow, hdrop, htake, chunksSpec]
      · have : row = [] := by
          cases row
          · rfl
          · simp at h0
        subst this
        rw [chunkRowAux, chunksSpec]
        simp

/-- Chunking splits a row without losing or reordering items. -/
theorem chunksSpec_flatten (n : Nat) :
    ∀ row : List ContentField, row.length ≤ n → (chunksSpec row).flatten = row := by
  induction n with
  | zero =>
    intro row hlen
    have : row = [] := List.eq_nil_of_length_eq_zero (Nat.le_zero.mp hlen)
    subst this
    rw [chunksSpec]
    simp
  | succ n ih =>
    intro row hlen
    by_cases hrow : row.isEmpty
    · rw [chunksSpec]
      simp_all [List.isEmpty_iff]
    · rw [chunksSpec, if_neg hrow]
      rw [List.flatten_cons,
        ih (row.drop 3) (by simp [List.length_drop]; cases row <;> simp_all; omega)]
      exact List.take_append_drop 3 row

/-- Every chunk is non-empty and holds at most 3 items. -/
theorem chunksSpec_bounds (n : Nat) :
    ∀ row : List ContentField, row.length ≤ n →
      ∀ g ∈ chunksSpec row, 0 < g.length ∧ g.length ≤ 3 := by
  induction n with
  | zero =>
    intro row hlen
    have : row = [] := List.eq_nil_of_length_eq_zero (Nat.le_zero.mp hlen)
    subst this
    rw [chunksSpec]
    simp
  | succ n ih =>
    intro row hlen g hg
    by_cases hrow : row.isEmpty
    · rw [chunksSpec, if_pos hrow] at hg
      simp at hg
    · rw [chunksSpec, if_neg hrow] at hg
      rw [List.mem_cons] at hg
      rcases hg with hg | hg
      · subst hg
        have : row.length ≠ 0 := by
          cases row
          · simp at hrow
          · simp
        constructor
        · simp [List.length_take]
          omega
        · simp [List.length_take]
      · exact ih (row.drop 3)
          (by simp [List.length_drop]; cases row <;> simp_all; omega) g hg

/-- A row of five items chunks into a row of 3 and a row of 2. -/
theorem chunksSpec_five (row : List ContentField) (h : row.length = 5) :
    (chunksSpec row).map List.length = [3, 2] := by
  have h1 : ¬row.isEmpty = true := by cases row <;> simp_all
  have h2 : ¬(row.drop 3).isEmpty = true := by
    have hl : (row.drop 3).length = 2 := by simp [h]
    cases hdd : row.drop 3 <;> simp_all
  have h3 : (row.drop 3).drop 3 = [] := by
    apply List.eq_nil_of_length_eq_zero
    simp [h]
  have hnil : chunksSpec [] = [] := by rw [chunksSpec]; simp
  rw [chunksSpec, if_neg h1, chunksSpec, if_neg h2, h3, hnil]
  simp [h]

/-- A row of three items stays one chunk. -/
theorem chunksSpec_three (row : List ContentField) (h : row.length = 3) :
    chunksSpec row = [row] := by
  have h1 : ¬row.isEmpty = true := by cases row <;> simp_all
  have h2 : row.drop 3 = [] := by
    apply List.eq_nil_of_length_eq_zero
    simp [h]
  have h3 : row.take 3 = row := List.take_of_length_le (by omega)
  have hnil : chunksSpec [] = [] := by rw [chunksSpec]; simp
  rw [chunksSpec, if_neg h1, h2, hnil, h3]

theorem alookup_append_of_none {κ β : Type} [DecidableEq κ] (k : κ)
    (l1 l2 : List (κ × β)) (h : alookup k l1 = none) :
    alookup k (l1 ++ l2) = alookup k l2 := by
  induction l1 with
  | nil => rfl
  | cons p t ih =>
    rw [alookup] at h
    rw [List.cons_append, alookup]
    by_cases hk : p.1 = k
    · simp [hk] at h
    · simp only [hk, if_false] at h ⊢
      exact ih h

theorem find?_eq_head?_filter {α : Type} (p : α → Bool) (l : List α) :
    l.find? p = (l.filter p).head? := by
  induction l with
  | nil => rfl
  | cons a t ih =>
    simp only [List.find?_cons, List.filter_cons]
    cases hp : p a
    · exact ih
    · rfl

theorem flatten_filter_nonempty {α : Type} (L : List (List α)) :
    (L.filter fun r => decide (r.length > 0)).flatten = L.flatten := by
  induction L with
  | nil => rfl
  | cons r t ih =>
    rw [List.filter_cons]
    by_cases hr : r.length > 0
    · simp [hr, ih]
    · have : r = [] := by
        cases r
        · rfl
        · simp at hr
      subst this
      simpa using ih

theorem flatten_map_filter {α : Type} (q : α → Bool) (L : List (List α)) :
    (L.map fun r => r.filter q).flatten = L.flatten.filter q := by
  induction L with
  | nil => rfl
  | cons r t ih =>
    rw [List.map_cons, List.flatten_cons, List.flatten_cons, List.filter_append, ih]

/-- The card-row switch succeeds on every row of 1 to 3 items. -/
theorem templateInfo_isSome (g : List ContentField) (h1 : 0 < g.length)
    (h3 : g.length ≤ 3) : (templateInfo g).isSome = true := by
  rcases g with _ | ⟨a, _ | ⟨b, _ | ⟨c, _ | ⟨d, t⟩⟩⟩⟩
  · simp at h1
  · rfl
  · rfl
  · rfl
  · simp at h3

/-! Step lemmas for the character-exact `.lproj` codec proofs. -/

theorem isPrefixOf_cons2 (a b : Char) (as bs : Str) :
    (a :: as).isPrefixOf (b :: bs) = (a == b && as.isPrefixOf bs) := rfl

theorem isPrefixOf_append_self (l t : Str) : l.isPrefixOf (l ++ t) = true := by
  induction l with
  | nil => cases t <;> rfl
  | cons c cs ih => simp [isPrefixOf_cons2, ih]

theorem isPrefixOf_head_ne {p c : Char} (ps t : Str) (h : c ≠ p) :
    (p :: ps).isPrefixOf (c :: t) = false := by
  simp only [isPrefixOf_cons2, Bool.and_eq_false_iff, beq_eq_false_iff_ne, ne_eq]
  left
  exact fun he => h he.symm

theorem replaceAll_nil (pat rep : Str) : replaceAll pat rep [] = [] := by
  rw [replaceAll]

theorem replaceAll_cons_ne (pat rep : Str) (c : Char) (t : Str)
    (h : pat.isPrefixOf (c :: t) = false) :
    replaceAll pat rep (c :: t) = c :: replaceAll pat rep t := by
  rw [replaceAll, if_neg]
  intro hx
  rw [hx.2] at h
  cases h

theorem replaceAll_match (pat rep t : Str) (hne : pat ≠ []) :
    replaceAll pat rep (pat ++ t) = rep ++ replaceAll pat rep t := by
  cases pat with
  | nil => exact absurd rfl hne
  | cons p ps =>
    rw [List.cons_append, replaceAll, if_pos]
    · rw [List.length_cons, Nat.add_sub_cancel, List.drop_left]
    · exact ⟨by simp, by rw [← List.cons_append]; exact isPrefixOf_append_self _ _⟩

theorem replaceAll_skip {p0 : Char} (pt rep s t : Str) (h : ∀ c ∈ s, c ≠ p0) :
    replaceAll (p0 :: pt) rep (s ++ t) = s ++ replaceAll (p0 :: pt) rep t := by
  induction s with
  | nil => rfl
  | cons c cs ih =>
    rw [List.cons_append,
      replaceAll_cons_ne _ _ _ _ (isPrefixOf_head_ne _ _ (h c (by simp))),
      ih fun d hd => h d (by simp [hd])]
    rfl

theorem splitOnStr_cons_ne (sep : Str) (c : Char) (t : Str)
    (h : sep.isPrefixOf (c :: t) = false) :
    splitOnStr sep (c :: t)
      = match splitOnStr sep t with
        | [] => [[c]]
        | l :: ls => (c :: l) :: ls := by
  rw [splitOnStr, if_neg]
  intro hx
  rw [hx.2] at h
  cases h

theorem splitOnStr_match (sep t : Str) (hne : sep ≠ []) :
    splitOnStr sep (sep ++ t) = [] :: splitOnStr sep t := by
  cases sep with
  | nil => exact absurd rfl hne
  | cons p ps =>
    rw [List.cons_append, splitOnStr, if_pos]
    · rw [List.length_cons, Nat.add_sub_cancel, List.drop_left]
    · exact ⟨by simp, by rw [← List.cons_append]; exact isPrefixOf_append_self _ _⟩

theorem splitOnStr_step (sep : Str) (c : Char) (t : Str) (l : Str)
    (ls : List Str) (h : sep.isPrefixOf (c :: t) = false)
    (ht : splitOnStr sep t = l :: ls) :
    splitOnStr sep (c :: t) = (c :: l) :: ls := by
  rw [splitOnStr_cons_ne sep c t h, ht]

theorem splitOnStr_skip {p0 : Char} (pt s t : Str) (l : Str) (ls : List Str)
    (h : ∀ c ∈ s, c ≠ p0) (ht : splitOnStr (p0 :: pt) t = l :: ls) :
    splitOnStr (p0 :: pt) (s ++ t) = (s ++ l) :: ls := by
  induction s with
  | nil => simpa using ht
  | cons c cs ih =>
    rw [List.cons_append,
      splitOnStr_step _ _ _ _ _ (isPrefixOf_head_ne _ _ (h c (by simp)))
        (ih fun d hd => h d (by simp [hd]))]
    rfl

theorem stripC_code (c : Char) (t : Str) (h1 : c ≠ '"') (h2 : c ≠ '/') :
    stripC (c :: t) = c :: stripC t := by
  rw [stripC]
  simp [h1, h2]

theorem stripC_quote (t : Str) : stripC ('"' :: t) = '"' :: stripInStr t := by
  rw [stripC]
  simp

theorem stripInStr_close (t : Str) : stripInStr ('"' :: t) = '"' :: stripC t := by
  rw [stripInStr.eq_def]
  simp

theorem stripInStr_chr (c : Char) (t : Str) (h1 : c ≠ '\\') (h2 : c ≠ '"') :
    stripInStr (c :: t) = c :: stripInStr t := by
  rw [stripInStr.eq_def]
  simp [h1, h2]

theorem stripC_skip_code (s t : Str) (h : ∀ c ∈ s, c ≠ '"' ∧ c ≠ '/') :
    stripC (s ++ t) = s ++ stripC t := by
  induction s with
  | nil => rfl
  | cons c cs ih =>
    rw [List.cons_append, stripC_code c _ (h c (by simp)).1 (h c (by simp)).2,
      ih fun d hd => h d (by simp [hd])]
    rfl

theorem stripInStr_skip (s t : Str) (h : ∀ c ∈ s, c ≠ '\\' ∧ c ≠ '"') :
    stripInStr (s ++ t) = s ++ stripInStr t := by
  induction s with
  | nil => rfl
  | cons c cs ih =>
    rw [List.cons_append, stripInStr_chr c _ (h c (by simp)).1 (h c (by simp)).2,
      ih fun d hd => h d (by simp [hd])]
    rfl

theorem stripC_string (s t : Str) (h : ∀ c ∈ s, c ≠ '\\' ∧ c ≠ '"') :
    stripC ('"' :: s ++ '"' :: t) = '"' :: s ++ '"' :: stripC t := by
  rw [List.cons_append, stripC_quote, stripInStr_skip s _ h, stripInStr_close]
  rfl

theorem goodStr_ne_quote {s : Str} (h : goodStr s) : ∀ c ∈ s, c ≠ '"' :=
  fun c hc => (h c hc).1

theorem goodStr_ne_newline {s : Str} (h : goodStr s) : ∀ c ∈ s, c ≠ '\n' := by
  intro c hc he
  have h3 := (h c hc).2.2
  rw [he] at h3
  exact absurd h3 (by decide)

theorem goodStr_str {s : Str} (h : goodStr s) : ∀ c ∈ s, c ≠ '\\' ∧ c ≠ '"' :=
  fun c hc => ⟨(h c hc).2.1, (h c hc).1⟩

theorem jsonEscapeChar_eq {c : Char} (h1 : c ≠ '"') (h2 : c ≠ '\\')
    (h3 : 32 ≤ c.toNat) : jsonEscapeChar c = [c] := by
  have hn : c ≠ '\n' := by
    intro he
    rw [he] at h3
    exact absurd h3 (by decide)
  have hr : c ≠ '\r' := by
    intro he
    rw [he] at h3
    exact absurd h3 (by decide)
  have ht : c ≠ '\t' := by
    intro he
    rw [he] at h3
    exact absurd h3 (by decide)
  have hb : c ≠ '\x08' := by
    intro he
    rw [he] at h3
    exact absurd h3 (by decide)
  have hf : c ≠ '\x0c' := by
    intro he
    rw [he] at h3
    exact absurd h3 (by decide)
  rw [jsonEscapeChar]
  simp [h1, h2, hn, hr, ht, hb, hf, show ¬c.toNat < 32 by omega]

theorem escape_eq_self {s : Str} (h : goodStr s) :
    (s.map jsonEscapeChar).flatten = s := by
  induction s with
  | nil => rfl
  | cons c cs ih =>
    rw [List.map_cons, List.flatten_cons,
      jsonEscapeChar_eq (h c (by simp)).1 (h c (by simp)).2.1 (h c (by simp)).2.2,
      ih fun d hd => h d (by simp [hd])]
    rfl

theorem jsonQuote_eq {s : Str} (h : goodStr s) : jsonQuote s = '"' :: s ++ ['"'] := by
  rw [jsonQuote, escape_eq_self h]

theorem intercalate_nil (s : Str) : List.intercalate s ([] : List Str) = [] := by
  simp [List.intercalate]

theorem intercalate_single (s a : Str) : List.intercalate s [a] = a := by
  simp [List.intercalate]

theorem intercalate_cons2 (s a b : Str) (t : List Str) :
    List.intercalate s (a :: b :: t) = a ++ s ++ List.intercalate s (b :: t) := by
  simp [List.intercalate, List.intersperse_cons_cons]

theorem intercalate_cons_ne_nil (s a : Str) (t : List Str) (h : t ≠ []) :
    List.intercalate s (a :: t) = a ++ s ++ List.intercalate s t := by
  cases t with
  | nil => exact absurd rfl h
  | cons b t2 => exact intercalate_cons2 s a b t2

theorem jsonStringifyObj_eq (entries : List (Str × Str))
    (h : ∀ e ∈ entries, goodEntry e) :
    jsonStringifyObj entries = '{' :: jsonBody entries ++ ['}'] := by
  rw [jsonStringifyObj]
  congr 1
  have hbody : ∀ l : List (Str × Str), (∀ e ∈ l, goodEntry e) →
      List.intercalate [','] (l.map fun e => jsonQuote e.1 ++ ':' :: jsonQuote e.2)
        = jsonBody l := by
    intro l
    induction l with
    | nil => intro _; simp [jsonBody, intercalate_nil]
    | cons e es ih =>
      intro hl
      have he := hl e (by simp)
      have hq : jsonQuote e.1 ++ ':' :: jsonQuote e.2 = jsonRaw e := by
        rw [jsonQuote_eq he.1.1, jsonQuote_eq he.2.1, jsonRaw]
        simp
      cases es with
      | nil => simp only [List.map_cons, List.map_nil, intercalate_single, jsonBody, hq]
      | cons e2 es2 =>
        rw [List.map_cons, intercalate_cons_ne_nil _ _ _ (by simp), hq,
          ih fun d hd => hl d (by simp [hd]),
          show jsonBody (e :: e2 :: es2) = jsonRaw e ++ ',' :: jsonBody (e2 :: es2)
            from rfl]
        simp
  rw [hbody entries h]

theorem quoteSepNoMatchAt (x c : Char) (t : Str) (hc : c ≠ x) :
    (['"', x] : Str).isPrefixOf ('"' :: c :: t) = false := by
  have : (x == c) = false := beq_eq_false_iff_ne.mpr fun he => hc he.symm
  simp [isPrefixOf_cons2, this]

theorem quoteSepNoMatch (x : Char) (s rest : Str) (hx : x ≠ '"')
    (hs : s.head? ≠ some x) :
    (['"', x] : Str).isPrefixOf ('"' :: (s ++ '"' :: rest)) = false := by
  cases s with
  | nil => exact quoteSepNoMatchAt x '"' rest fun he => hx he.symm
  | cons c s2 =>
    exact quoteSepNoMatchAt x c _ fun he => hs (by simp [he])

theorem pat1_not_prefix_open (k rest : Str) (hk : goodStr k) (hk1 : k ≠ [':']) :
    (['"', ':', '"'] : Str).isPrefixOf ('"' :: (k ++ '"' :: rest)) = false := by
  cases k with
  | nil => rfl
  | cons c k2 =>
    by_cases hc : c = ':'
    · subst hc
      cases k2 with
      | nil => exact absurd rfl hk1
      | cons d k3 =>
        have hd : ('"' == d) = false :=
          beq_eq_false_iff_ne.mpr fun he => (hk d (by simp)).1 he.symm
        simp [List.cons_append, isPrefixOf_cons2, hd]
    · have hcc : (':' == c) = false := beq_eq_false_iff_ne.mpr fun he => hc he.symm
      simp [List.cons_append, isPrefixOf_cons2, hcc]

theorem replace1_entry (k v rest : Str) (hk : goodStr k) (hk1 : k ≠ [':'])
    (hv : goodStr v) (hrest : rest.head? ≠ some ':') :
    replaceAll ['"', ':', '"'] ['"', ' ', '=', ' ', '"']
        ('"' :: (k ++ '"' :: ':' :: '"' :: (v ++ '"' :: rest)))
      = lineHead (k, v) ++ '"' :: replaceAll ['"', ':', '"'] ['"', ' ', '=', ' ', '"'] rest := by
  have hlast : (['"', ':', '"'] : Str).isPrefixOf ('"' :: rest) = false := by
    cases rest with
    | nil => rfl
    | cons r rs =>
      have hr : (':' == r) = false := by
        refine beq_eq_false_iff_ne.mpr fun he => hrest ?_
        simp [← he]
      simp [isPrefixOf_cons2, hr]
  have h4 : replaceAll ['"', ':', '"'] ['"', ' ', '=', ' ', '"'] ('"' :: rest)
      = '"' :: replaceAll ['"', ':', '"'] ['"', ' ', '=', ' ', '"'] rest :=
    replaceAll_cons_ne _ _ _ _ hlast
  have h3 : replaceAll ['"', ':', '"'] ['"', ' ', '=', ' ', '"'] (v ++ '"' :: rest)
      = v ++ '"' :: replaceAll ['"', ':', '"'] ['"', ' ', '=', ' ', '"'] rest := by
    rw [replaceAll_skip _ _ _ _ (goodStr_ne_quote hv), h4]
  have h2 : replaceAll ['"', ':', '"'] ['"', ' ', '=', ' ', '"']
      ('"' :: ':' :: '"' :: (v ++ '"' :: rest))
      = '"' :: ' ' :: '=' :: ' ' :: '"' ::
          (v ++ '"' :: replaceAll ['"', ':', '"'] ['"', ' ', '=', ' ', '"'] rest) := by
    rw [show ('"' :: ':' :: '"' :: (v ++ '"' :: rest) : Str)
        = ['"', ':', '"'] ++ (v ++ '"' :: rest) from rfl,
      replaceAll_match _ _ _ (by simp), h3]
    rfl
  have h1 : replaceAll ['"', ':', '"'] ['"', ' ', '=', ' ', '"']
      (k ++ '"' :: ':' :: '"' :: (v ++ '"' :: rest))
      = k ++ '"' :: ' ' :: '=' :: ' ' :: '"' ::
          (v ++ '"' :: replaceAll ['"', ':', '"'] ['"', ' ', '=', ' ', '"'] rest) := by
    rw [replaceAll_skip _ _ _ _ (goodStr_ne_quote hk), h2]
  rw [replaceAll_cons_ne _ _ _ _ (pat1_not_prefix_open k _ hk hk1), h1, lineHead]
  simp

theorem replace1_body (entries : List (Str × Str)) (h : ∀ e ∈ entries, goodEntry e) :
    replaceAll ['"', ':', '"'] ['"', ' ', '=', ' ', '"'] (jsonBody entries ++ ['}'])
      = eqBody entries ++ ['}'] := by
  have hbrace : replaceAll ['"', ':', '"'] ['"', ' ', '=', ' ', '"'] ['}'] = ['}'] := by
    rw [replaceAll_cons_ne _ _ _ _ (by rfl), replaceAll_nil]
  induction entries with
  | nil => simpa [jsonBody, eqBody] using hbrace
  | cons e es ih =>
    have he := h e (by simp)
    cases es with
    | nil =>
      have hshape : jsonBody [e] ++ ['}']
          = '"' :: (e.1 ++ '"' :: ':' :: '"' :: (e.2 ++ '"' :: ['}'])) := by
        simp [jsonBody, jsonRaw]
      rw [hshape, replace1_entry e.1 e.2 ['}'] he.1.1 he.1.2.1 he.2.1 (by simp),
        hbrace, eqBody, lprojLine]
      simp
    | cons e2 es2 =>
      have hshape : jsonBody (e :: e2 :: es2) ++ ['}']
          = '"' :: (e.1 ++ '"' :: ':' :: '"' ::
              (e.2 ++ '"' :: (',' :: (jsonBody (e2 :: es2) ++ ['}'])))) := by
        show (jsonRaw e ++ ',' :: jsonBody (e2 :: es2)) ++ ['}'] = _
        simp [jsonRaw]
      rw [hshape,
        replace1_entry e.1 e.2 (',' :: (jsonBody (e2 :: es2) ++ ['}']))
          he.1.1 he.1.2.1 he.2.1 (by simp),
        replaceAll_cons_ne _ _ _ _ (isPrefixOf_head_ne _ _ (by decide)),
        ih fun d hd => h d (by simp [hd])]
      show lineHead (e.1, e.2) ++ '"' :: ',' :: (eqBody (e2 :: es2) ++ ['}'])
          = (lprojLine e ++ ',' :: eqBody (e2 :: es2)) ++ ['}']
      simp [lprojLine, lineHead]

theorem replace2_line (k v : Str) (hk : goodStr k) (hk2 : k.head? ≠ some ',')
    (hv : goodStr v) (hv2 : v.head? ≠ some ',') (rest : Str) :
    replaceAll ['"', ','] ['"', ';', '\n'] (lineHead (k, v) ++ '"' :: rest)
      = lineHead (k, v) ++ replaceAll ['"', ','] ['"', ';', '\n'] ('"' :: rest) := by
  have hshape : lineHead (k, v) ++ '"' :: rest
      = '"' :: (k ++ '"' :: (' ' :: '=' :: ' ' :: ('"' :: (v ++ '"' :: rest)))) := by
    simp [lineHead]
  rw [hshape,
    replaceAll_cons_ne _ _ _ _
      (quoteSepNoMatch ',' k _ (by decide) (by simpa using hk2)),
    replaceAll_skip _ _ _ _ (goodStr_ne_quote hk),
    replaceAll_cons_ne _ _ _ _ (quoteSepNoMatchAt ',' ' ' _ (by decide)),
    replaceAll_cons_ne _ _ _ _ (isPrefixOf_head_ne _ _ (by decide)),
    replaceAll_cons_ne _ _ _ _ (isPrefixOf_head_ne _ _ (by decide)),
    replaceAll_cons_ne _ _ _ _ (isPrefixOf_head_ne _ _ (by decide)),
    replaceAll_cons_ne _ _ _ _
      (quoteSepNoMatch ',' v _ (by decide) (by simpa using hv2)),
    replaceAll_skip _ _ _ _ (goodStr_ne_quote hv), lineHead]
  simp

theorem replace2_body (entries : List (Str × Str)) (h : ∀ e ∈ entries, goodEntry e) :
    replaceAll ['"', ','] ['"', ';', '\n'] (eqBody entries ++ ['}'])
      = lprojBody entries ++ ['}'] := by
  have hbrace : replaceAll ['"', ','] ['"', ';', '\n'] ['}'] = ['}'] := by
    rw [replaceAll_cons_ne _ _ _ _ (by rfl), replaceAll_nil]
  induction entries with
  | nil => simpa [eqBody, lprojBody] using hbrace
  | cons e es ih =>
    have he := h e (by simp)
    cases es with
    | nil =>
      have hshape : eqBody [e] ++ ['}'] = lineHead (e.1, e.2) ++ '"' :: ['}'] := by
        simp [eqBody, lprojLine]
      rw [hshape, replace2_line e.1 e.2 he.1.1 he.1.2.2.1 he.2.1 he.2.2.1 ['}'],
        replaceAll_cons_ne _ _ _ _ (by rfl), hbrace, lprojBody, lprojLine]
      simp
    | cons e2 es2 =>
      have hshape : eqBody (e :: e2 :: es2) ++ ['}']
          = lineHead (e.1, e.2) ++ '"' :: (',' :: (eqBody (e2 :: es2) ++ ['}'])) := by
        show (lprojLine e ++ ',' :: eqBody (e2 :: es2)) ++ ['}'] = _
        simp [lprojLine]
      rw [hshape, replace2_line e.1 e.2 he.1.1 he.1.2.2.1 he.2.1 he.2.2.1 _,
        show ('"' :: ',' :: (eqBody (e2 :: es2) ++ ['}']) : Str)
          = ['"', ','] ++ (eqBody (e2 :: es2) ++ ['}']) from rfl,
        replaceAll_match _ _ _ (by simp), ih fun d hd => h d (by simp [hd])]
      show lineHead (e.1, e.2) ++ '"' :: ';' :: '\n' :: (lprojBody (e2 :: es2) ++ ['}'])
          = (lprojLine e ++ ';' :: '\n' :: lprojBody (e2 :: es2)) ++ ['}']
      simp [lprojLine, lineHead]

theorem lprojExport_closed (entries : List (Str × Str))
    (h : ∀ e ∈ entries, goodEntry e) :
    lprojExport entries = lprojBody entries ++ [';'] := by
  rw [lprojExport, jsonStringifyObj_eq entries h,
    show ('{' :: jsonBody entries ++ ['}'] : Str)
      = '{' :: (jsonBody entries ++ ['}']) from rfl,
    replaceAll_cons_ne _ _ _ _ (isPrefixOf_head_ne _ _ (by decide)),
    replace1_body entries h,
    show ('{' :: (eqBody entries ++ ['}']) : Str)
      = '{' :: (eqBody entries ++ ['}']) from rfl,
    replaceAll_cons_ne _ _ _ _ (isPrefixOf_head_ne _ _ (by decide)),
    replace2_body entries h]
  simp [List.dropLast_concat]

theorem stripC_nil : stripC [] = [] := by
  rw [stripC.eq_def]

theorem splitOnStr_nil_eq (sep : Str) : splitOnStr sep [] = [[]] := by
  rw [splitOnStr]

theorem stripC_line (e : Str × Str) (he : goodEntry e) (T : Str) :
    stripC (lprojLine e ++ T) = lprojLine e ++ stripC T := by
  have hshape : lprojLine e ++ T
      = '"' :: e.1 ++ '"' :: (' ' :: '=' :: ' ' :: ('"' :: e.2 ++ '"' :: T)) := by
    simp [lprojLine, lineHead]
  rw [hshape, stripC_string _ _ (goodStr_str he.1.1),
    stripC_code ' ' _ (by decide) (by decide),
    stripC_code '=' _ (by decide) (by decide),
    stripC_code ' ' _ (by decide) (by decide),
    stripC_string _ _ (goodStr_str he.2.1)]
  simp [lprojLine, lineHead]

theorem stripC_lproj (entries : List (Str × Str)) (h : ∀ e ∈ entries, goodEntry e) :
    stripC (lprojBody entries ++ [';']) = lprojBody entries ++ [';'] := by
  have hsemi : stripC [';'] = [';'] := by
    rw [stripC_code ';' _ (by decide) (by decide), stripC_nil]
  induction entries with
  | nil => simpa [lprojBody] using hsemi
  | cons e es ih =>
    have he := h e (by simp)
    cases es with
    | nil =>
      show stripC (lprojLine e ++ [';']) = lprojLine e ++ [';']
      rw [stripC_line e he, hsemi]
    | cons e2 es2 =>
      show stripC (lprojLine e ++ (';' :: '\n' :: lprojBody (e2 :: es2)) ++ [';'])
          = (lprojLine e ++ ';' :: '\n' :: lprojBody (e2 :: es2)) ++ [';']
      rw [List.append_assoc, stripC_line e he, List.cons_append, List.cons_append,
        stripC_code ';' _ (by decide) (by decide),
        stripC_code '\n' _ (by decide) (by decide),
        ih fun d hd => h d (by simp [hd])]
      try simp

theorem splitOnStr_ne_nil (sep s : Str) : splitOnStr sep s ≠ [] := by
  induction s with
  | nil => simp [splitOnStr]
  | cons c t ih =>
    rw [splitOnStr]
    by_cases hc : sep ≠ [] ∧ sep.isPrefixOf (c :: t)
    · simp [hc]
    · simp only [hc, if_false]
      cases h2 : splitOnStr sep t <;> simp

theorem split_line (e : Str × Str) (he : goodEntry e) (tail : Str) :
    splitOnStr ['"', ';'] (lineHead e ++ '"' :: ';' :: tail)
      = lineHead e :: splitOnStr ['"', ';'] tail := by
  obtain ⟨l, ls, hls⟩ : ∃ l ls, splitOnStr ['"', ';'] tail = l :: ls := by
    cases hx : splitOnStr ['"', ';'] tail with
    | nil => exact absurd hx (splitOnStr_ne_nil _ _)
    | cons l ls => exact ⟨l, ls, rfl⟩
  have h0 : splitOnStr ['"', ';'] ('"' :: ';' :: tail) = [] :: l :: ls := by
    rw [show ('"' :: ';' :: tail : Str) = ['"', ';'] ++ tail from rfl,
      splitOnStr_match _ _ (by simp), hls]
  have h1 : splitOnStr ['"', ';'] (e.2 ++ '"' :: ';' :: tail)
      = (e.2 ++ []) :: l :: ls :=
    splitOnStr_skip _ _ _ _ _ (goodStr_ne_quote he.2.1) h0
  have h2 : splitOnStr ['"', ';'] ('"' :: (e.2 ++ '"' :: ';' :: tail))
      = ('"' :: (e.2 ++ [])) :: l :: ls :=
    splitOnStr_step _ _ _ _ _
      (quoteSepNoMatch ';' e.2 _ (by decide) (by simpa using he.2.2.2)) h1
  have h3 : splitOnStr ['"', ';'] (' ' :: '"' :: (e.2 ++ '"' :: ';' :: tail))
      = (' ' :: '"' :: (e.2 ++ [])) :: l :: ls :=
    splitOnStr_step _ _ _ _ _ (isPrefixOf_head_ne _ _ (by decide)) h2
  have h4 : splitOnStr ['"', ';'] ('=' :: ' ' :: '"' :: (e.2 ++ '"' :: ';' :: tail))
      = ('=' :: ' ' :: '"' :: (e.2 ++ [])) :: l :: ls :=
    splitOnStr_step _ _ _ _ _ (isPrefixOf_head_ne _ _ (by decide)) h3
  have h5 : splitOnStr ['"', ';']
      (' ' :: '=' :: ' ' :: '"' :: (e.2 ++ '"' :: ';' :: tail))
      = (' ' :: '=' :: ' ' :: '"' :: (e.2 ++ [])) :: l :: ls :=
    splitOnStr_step _ _ _ _ _ (isPrefixOf_head_ne _ _ (by decide)) h4
  have hq : splitOnStr ['"', ';']
      ('"' :: (' ' :: '=' :: ' ' :: '"' :: (e.2 ++ '"' :: ';' :: tail)))
      = ('"' :: (' ' :: '=' :: ' ' :: '"' :: (e.2 ++ []))) :: l :: ls :=
    splitOnStr_step _ _ _ _ _ (quoteSepNoMatchAt ';' ' ' _ (by decide)) h5
  have h5b : splitOnStr ['"', ';']
      (e.1 ++ '"' :: (' ' :: '=' :: ' ' :: '"' :: (e.2 ++ '"' :: ';' :: tail)))
      = (e.1 ++ ('"' :: (' ' :: '=' :: ' ' :: '"' :: (e.2 ++ [])))) :: l :: ls :=
    splitOnStr_skip _ _ _ _ _ (goodStr_ne_quote he.1.1) hq
  have h6 : splitOnStr ['"', ';']
      ('"' :: (e.1 ++ '"' :: (' ' :: '=' :: ' ' :: '"' :: (e.2 ++ '"' :: ';' :: tail))))
      = ('"' :: (e.1 ++ ('"' :: (' ' :: '=' :: ' ' :: '"' :: (e.2 ++ []))))) :: l :: ls :=
    splitOnStr_step _ _ _ _ _
      (quoteSepNoMatch ';' e.1 _ (by decide) (by simpa using he.1.2.2.2)) h5b
  have hshape : lineHead e ++ '"' :: ';' :: tail
      = '"' :: (e.1 ++ '"' :: (' ' :: '=' :: ' ' :: '"' :: (e.2 ++ '"' :: ';' :: tail))) := by
    simp [lineHead]
  rw [hshape, h6, hls]
  simp [lineHead]

theorem split_body (e : Str × Str) (es : List (Str × Str))
    (h : ∀ d ∈ e :: es, goodEntry d) :
    splitOnStr ['"', ';'] (lprojBody (e :: es) ++ [';'])
      = lineHead e :: partsAux es := by
  induction es generalizing e with
  | nil =>
    show splitOnStr ['"', ';'] (lprojLine e ++ [';']) = lineHead e :: partsAux []
    rw [show lprojLine e ++ [';'] = lineHead e ++ '"' :: ';' :: [] by simp [lprojLine],
      split_line e (h e (by simp)), splitOnStr_nil_eq]
    rfl
  | cons e2 es2 ih =>
    show splitOnStr ['"', ';']
        ((lprojLine e ++ ';' :: '\n' :: lprojBody (e2 :: es2)) ++ [';'])
        = lineHead e :: partsAux (e2 :: es2)
    have hshape : (lprojLine e ++ ';' :: '\n' :: lprojBody (e2 :: es2)) ++ [';']
        = lineHead e ++ '"' :: ';' :: ('\n' :: (lprojBody (e2 :: es2) ++ [';'])) := by
      simp [lprojLine]
    rw [hshape, split_line e (h e (by simp))]
    have hrest := ih e2 fun d hd => h d (by simp at hd; simp [hd])
    rw [splitOnStr_step _ _ _ _ _ (isPrefixOf_head_ne _ _ (by decide)) hrest]
    rfl

theorem dropThroughFirstQuote_quote (s : Str) :
    dropThroughFirstQuote ('"' :: s) = s := by
  rw [dropThroughFirstQuote]
  simp [List.findIdx?_cons]

theorem dropThroughFirstQuote_nl (s : Str) :
    dropThroughFirstQuote ('\n' :: '"' :: s) = s := by
  rw [dropThroughFirstQuote]
  simp [List.findIdx?_cons]

theorem removeFirstNewline_id (s : Str) (h : ∀ c ∈ s, c ≠ '\n') :
    removeFirstNewline s = s := by
  induction s with
  | nil => rfl
  | cons c t ih =>
    rw [removeFirstNewline, if_neg (h c (by simp)),
      ih fun d hd => h d (by simp [hd])]

theorem splitKV (k v : Str) (hk : goodStr k) (hv : goodStr v) :
    splitOnStr ['"', ' ', '=', ' ', '"'] (k ++ '"' :: ' ' :: '=' :: ' ' :: '"' :: v)
      = [k, v] := by
  have hv0 : splitOnStr ['"', ' ', '=', ' ', '"'] v = [v] := by
    have := splitOnStr_skip [' ', '=', ' ', '"'] v ([] : Str) [] []
      (goodStr_ne_quote hv) (splitOnStr_nil_eq _)
    simpa using this
  have h1 : splitOnStr ['"', ' ', '=', ' ', '"'] ('"' :: ' ' :: '=' :: ' ' :: '"' :: v)
      = [] :: [v] := by
    rw [show ('"' :: ' ' :: '=' :: ' ' :: '"' :: v : Str)
        = ['"', ' ', '=', ' ', '"'] ++ v from rfl,
      splitOnStr_match _ _ (by simp), hv0]
  have h2 := splitOnStr_skip [' ', '=', ' ', '"'] k
    ('"' :: ' ' :: '=' :: ' ' :: '"' :: v) [] [v] (goodStr_ne_quote hk) h1
  simpa using h2

theorem procLine_good (d : Str × Str) (hd : goodEntry d) :
    splitOnStr ['"', ' ', '=', ' ', '"']
      (removeFirstNewline (dropThroughFirstQuote (lineHead d))) = [d.1, d.2] := by
  have hnl : ∀ c ∈ (d.1 ++ '"' :: ' ' :: '=' :: ' ' :: '"' :: d.2 : Str), c ≠ '\n' := by
    intro c hc
    rcases List.mem_append.mp hc with hc1 | hc2
    · exact goodStr_ne_newline hd.1.1 c hc1
    · simp only [List.mem_cons] at hc2
      rcases hc2 with rfl | rfl | rfl | rfl | rfl | hc3
      · decide
      · decide
      · decide
      · decide
      · decide
      · exact goodStr_ne_newline hd.2.1 c hc3
  rw [show lineHead d = '"' :: (d.1 ++ '"' :: ' ' :: '=' :: ' ' :: '"' :: d.2) by
      simp [lineHead],
    dropThroughFirstQuote_quote, removeFirstNewline_id _ hnl,
    splitKV d.1 d.2 hd.1.1 hd.2.1]

theorem procLine_nl (d : Str × Str) (hd : goodEntry d) :
    splitOnStr ['"', ' ', '=', ' ', '"']
      (removeFirstNewline (dropThroughFirstQuote ('\n' :: lineHead d))) = [d.1, d.2] := by
  have hnl : ∀ c ∈ (d.1 ++ '"' :: ' ' :: '=' :: ' ' :: '"' :: d.2 : Str), c ≠ '\n' := by
    intro c hc
    rcases List.mem_append.mp hc with hc1 | hc2
    · exact goodStr_ne_newline hd.1.1 c hc1
    · simp only [List.mem_cons] at hc2
      rcases hc2 with rfl | rfl | rfl | rfl | rfl | hc3
      · decide
      · decide
      · decide
      · decide
      · decide
      · exact goodStr_ne_newline hd.2.1 c hc3
  rw [show '\n' :: lineHead d
      = '\n' :: '"' :: (d.1 ++ '"' :: ' ' :: '=' :: ' ' :: '"' :: d.2) by
      simp [lineHead],
    dropThroughFirstQuote_nl, removeFirstNewline_id _ hnl,
    splitKV d.1 d.2 hd.1.1 hd.2.1]

theorem procLine_empty :
    splitOnStr ['"', ' ', '=', ' ', '"']
      (removeFirstNewline (dropThroughFirstQuote ([] : Str))) = [[]] := by
  rw [show dropThroughFirstQuote ([] : Str) = [] by
      rw [dropThroughFirstQuote]
      simp [List.findIdx?],
    removeFirstNewline, splitOnStr_nil_eq]

theorem parseParts (es : List (Str × Str)) (h : ∀ d ∈ es, goodEntry d) :
    ((partsAux es).map fun line => splitOnStr ['"', ' ', '=', ' ', '"']
        (removeFirstNewline (dropThroughFirstQuote line))).filterMap
      (fun parts => match parts with | a :: b :: _ => some (a, b) | _ => none)
      = es := by
  induction es with
  | nil =>
    show (([([] : Str)]).map fun line => splitOnStr ['"', ' ', '=', ' ', '"']
        (removeFirstNewline (dropThroughFirstQuote line))).filterMap _ = []
    rw [List.map_cons, procLine_empty]
    rfl
  | cons d ds ih =>
    show ((('\n' :: lineHead d) :: partsAux ds).map fun line =>
        splitOnStr ['"', ' ', '=', ' ', '"']
          (removeFirstNewline (dropThroughFirstQuote line))).filterMap _ = d :: ds
    rw [List.map_cons, procLine_nl d (h d (by simp)), List.filterMap_cons,
      ih fun x hx => h x (by simp [hx])]

theorem lprojParse_closed (e : Str × Str) (es : List (Str × Str))
    (h : ∀ d ∈ e :: es, goodEntry d) :
    lprojParse (lprojBody (e :: es) ++ [';']) = e :: es := by
  rw [lprojParse, stripC_lproj _ h, split_body e es h, List.map_cons,
    procLine_good e (h e (by simp)), List.filterMap_cons,
    parseParts es fun d hd => h d (by simp [hd])]

/-! # Claim theorems -/

/-- C10: for every pass encoded to an archive, the written pass description
JSON sets its description field to the pass's description when that is
non-empty and otherwise to the pass's title; hence the archive's description
is always present (truthy) whenever the pass has a title, even when the
intermediate pass carries no description of its own. -/
theorem c10_pkpass_description (cfg : Config) (p : PassCore) :
    (toPkPassJson cfg p).description
        = (if optTruthy p.description then p.description else p.title)
    ∧ (optTruthy p.title = true → optTruthy (toPkPassJson cfg p).description = true) := by
  constructor
  · cases hd : p.description with
    | none => simp [toPkPassJson, jsOrOpt, optTruthy, hd]
    | some s =>
      by_cases hs : s = "" <;> simp [toPkPassJson, jsOrOpt, optTruthy, hd, hs]
  · intro ht
    cases hd : p.description with
    | none => simpa [toPkPassJson, jsOrOpt, optTruthy, hd] using ht
    | some s =>
      by_cases hs : s = "" <;> simp_all [toPkPassJson, jsOrOpt, optTruthy]

/-- Witness for C10 at a pass with a title and no description. -/
theorem c10_pkpass_description_witness :
    optTruthy (toPkPassJson ⟨"en", "-", none, []⟩
        ⟨some "id1", some "My pass", none, none⟩).description = true :=
  (c10_pkpass_description ⟨"en", "-", none, []⟩
    ⟨some "id1", some "My pass", none, none⟩).2 (by decide)

/-- C4: encoding a loyalty balance of value 12.3 under currency JPY
(precision 0) produces a money balance whose micros integer is 12, and
decoding that encoded balance back yields the value 12 (as the slot's
string rendering), not 12.3. -/
theorem c4_jpy_balance_precision :
    precision "JPY" = some 0
    ∧ toGoogleBalanceField
        (some { label := some "Points", value := (12.3 : ℚ), currencyCode := some "JPY" })
        = some { localizedLabelValue := some "Points",
                 balance := .money { currencyCode := "JPY", micros := some 12 } }
    ∧ fromGoogleBalanceField
        (some { localizedLabelValue := some "Points",
                balance := .money { currencyCode := "JPY", micros := some 12 } })
        = some (some "JPY", some (.inr "12")) := by
  have hp : precision "JPY" = some 0 := by decide
  refine ⟨hp, ?_, ?_⟩
  · simp only [toGoogleBalanceField, hp, jsPow10, jsMul, jsRound]
    norm_num
  · simp only [fromGoogleBalanceField, fromGoogleBalanceValue, hp, jsDiv, jsPow10, jsToFixed,
      Option.map, Option.getD]
    norm_num
    decide

/-- Counterexample for C8: for a three-letter code absent from the table the
precision lookup yields `undefined`, but the conversion does not throw: it
completes, producing a money balance whose micros are `NaN`, and the
corresponding decode completes too, yielding the string NaN. -/
theorem c8_unknown_currency_counterexample :
    precision "ZZZ" = none
    ∧ toGoogleBalanceField
        (some { label := none, value := (12.3 : ℚ), currencyCode := some "ZZZ" })
        = some { localizedLabelValue := none,
                 balance := .money { currencyCode := "ZZZ", micros := none } }
    ∧ fromGoogleBalanceField
        (some { localizedLabelValue := none,
                balance := .money { currencyCode := "ZZZ", micros := none } })
        = some (some "ZZZ", some (.inr "NaN")) := by
  refine ⟨by decide, ?_, by decide⟩
  have hp : precision "ZZZ" = none := by decide
  simp only [toGoogleBalanceField, hp, jsPow10, jsMul_none_right, jsRound]

/-- C8 (amended): for every balance whose three-letter currency code is
absent from the precision table, the lookup yields `undefined` and the
conversion completes without throwing, producing a `NaN` micros value (not
a well-defined numeric result); the decode of any money balance under such
a code likewise completes, with the string NaN as its value. -/
theorem c8_unknown_currency_nan (f : BalanceField) (c : String)
    (hcc : f.currencyCode = some c) (hp : precision c = none) :
    toGoogleBalanceField (some f)
        = some { localizedLabelValue := f.label,
                 balance := .money { currencyCode := c, micros := none } }
    ∧ (∀ m : MoneyValue, m.currencyCode = c →
        fromGoogleBalanceValue (.money m) = some (.inr "NaN")) := by
  constructor
  · simp only [toGoogleBalanceField, hcc, hp, jsPow10, jsMul_none_right, jsRound]
  · intro m hm
    simp only [fromGoogleBalanceValue, hm, hp, jsPow10, jsDiv_none_right, jsToFixed]

/-- Witness for C8 at the concrete unknown code QQQ. -/
theorem c8_unknown_currency_nan_witness :
    toGoogleBalanceField (some { label := none, value := (7 : ℚ), currencyCode := some "QQQ" })
        = some { localizedLabelValue := none,
                 balance := .money { currencyCode := "QQQ", micros := none } }
    ∧ fromGoogleBalanceValue (.money { currencyCode := "QQQ", micros := some 5 })
        = some (.inr "NaN") :=
  ⟨(c8_unknown_currency_nan ⟨none, (7 : ℚ), some "QQQ"⟩ "QQQ" rfl (by decide)).1,
   (c8_unknown_currency_nan ⟨none, (7 : ℚ), some "QQQ"⟩ "QQQ" rfl (by decide)).2
     ⟨"QQQ", some 5⟩ rfl⟩

/-- Counterexample for C5: a description carrying the boardingPass content
key with transit type air, together with a generic content key, selects the
Generic variant (first match in priority order), not Flight — so selection
is not determined by the transit type alone. -/
theorem c5_variant_counterexample :
    alookup "boardingPass"
        ([("generic", none), ("boardingPass", some "PKTransitTypeAir")]
          : List (String × Option String))
      = some (some "PKTransitTypeAir")
    ∧ fromPkPassVariant ⟨[("generic", none), ("boardingPass", some "PKTransitTypeAir")]⟩
        ≠ some GPassType.flight := by decide

/-- C5 (amended): for a description whose only content-field key among the
variants' keys is boardingPass, the Flight variant is selected exactly when
the transit type is air, and the Transit variant exactly when it is one of
train, boat, bus, generic; selection is the first predicate match in the
fixed priority order. -/
theorem c5_variant_selection (json : PkPassDescription) (tt : Option String)
    (hb : alookup "boardingPass" json.buckets = some tt)
    (hg : alookup "generic" json.buckets = none)
    (hs : alookup "storeCard" json.buckets = none)
    (he : alookup "eventTicket" json.buckets = none)
    (hc : alookup "coupon" json.buckets = none) :
    (fromPkPassVariant json = some GPassType.flight ↔ tt = some "PKTransitTypeAir")
    ∧ (fromPkPassVariant json = some GPassType.transit ↔
        (tt = some "PKTransitTypeTrain" ∨ tt = some "PKTransitTypeBoat"
          ∨ tt = some "PKTransitTypeBus" ∨ tt = some "PKTransitTypeGeneric"))
    ∧ fromPkPassVariant json = (passClasses.filter (pkPassVariantPred json)).head? := by
  have hvals : fromPkPassVariant json
      = (passClasses.filter (pkPassVariantPred json)).head? := rfl
  refine ⟨?_, ?_, hvals⟩ <;>
  · rw [hvals]
    simp only [passClasses, pkPassVariantPred, pkpassContentFieldsOf, pkpassTransitTypesOf,
      hb, hg, hs, he, hc, List.filter]
    cases tt with
    | none => simp
    | some s =>
      by_cases h1 : s = "PKTransitTypeAir" <;>
        by_cases h2 : s = "PKTransitTypeTrain" <;>
          by_cases h3 : s = "PKTransitTypeBoat" <;>
            by_cases h4 : s = "PKTransitTypeBus" <;>
              by_cases h5 : s = "PKTransitTypeGeneric" <;>
                simp_all

/-- Witness for C5 at a boardingPass-only description with the air transit
type. -/
theorem c5_variant_selection_witness :
    fromPkPassVariant ⟨[("boardingPass", some "PKTransitTypeAir")]⟩ = some GPassType.flight :=
  (c5_variant_selection ⟨[("boardingPass", some "PKTransitTypeAir")]⟩
    (some "PKTransitTypeAir") (by decide) (by decide) (by decide) (by decide) (by decide)).1.mpr
    rfl

/-- C1: the card row template is the first 3 rows of the concatenation, over
all front-content rows in order, of each row's split into consecutive groups
of at most 3 items (a 5-item row giving rows of 3 and 2, a 3-item row
staying one row, every group non-empty and of at most 3 items, with nothing
lost by the split); the switch filling the template never hits its
throwing default; and every front-content item, including items beyond the
3-row cap, appears as a free-text module keyed by its key. -/
theorem c1_row_packing (cfg : Config) (fmt : ContentField → String → String)
    (st : PassCtx) :
    (toGoogleBase cfg fmt st).cardRowTemplateInfos
        = ((st.frontContent.map chunksSpec).flatten.take 3).map templateInfo
    ∧ (toGoogleBase cfg fmt st).cardRowTemplateInfos.length ≤ 3
    ∧ (∀ t ∈ (toGoogleBase cfg fmt st).cardRowTemplateInfos, t.isSome = true)
    ∧ (∀ row : List ContentField, (chunksSpec row).flatten = row)
    ∧ (∀ row : List ContentField, ∀ g ∈ chunksSpec row, 0 < g.length ∧ g.length ≤ 3)
    ∧ (∀ row : List ContentField, row.length = 5 →
        (chunksSpec row).map List.length = [3, 2])
    ∧ (∀ row : List ContentField, row.length = 3 → chunksSpec row = [row])
    ∧ (∀ f ∈ st.frontContent.flatten,
        ∃ m ∈ (toGoogleBase cfg fmt st).textModulesData, m.id = f.key) := by
  have hpack : st.frontContent.map (chunkRowAux []) = st.frontContent.map chunksSpec :=
    List.map_congr_left fun row _ => by
      simpa using chunkRowAux_eq_chunksSpec row.length row le_rfl []
  refine ⟨?_, ?_, ?_, ?_, ?_, ?_, ?_, ?_⟩
  · simp only [toGoogleBase, hpack]
  · simp only [toGoogleBase, List.length_map, List.length_take]
    omega
  · intro t ht
    simp only [toGoogleBase, hpack] at ht
    obtain ⟨g, hg, rfl⟩ := List.mem_map.mp ht
    have hg2 := List.mem_of_mem_take hg
    obtain ⟨l, hl, hgl⟩ := List.mem_flatten.mp hg2
    obtain ⟨row, _, rfl⟩ := List.mem_map.mp hl
    have hb := chunksSpec_bounds row.length row le_rfl g hgl
    exact templateInfo_isSome g hb.1 hb.2
  · intro row
    exact chunksSpec_flatten row.length row le_rfl
  · intro row
    exact chunksSpec_bounds row.length row le_rfl
  · intro row
    exact chunksSpec_five row
  · intro row
    exact chunksSpec_three row
  · intro f hf
    simp only [toGoogleBase]
    exact ⟨_, List.mem_map_of_mem _ hf, rfl⟩

/-- Witness for C1 at a pass whose front content is one row of five items
and one row of one item. -/
theorem c1_row_packing_witness :
    (chunksSpec
        [⟨"a", none, "1", false, false⟩, ⟨"b", none, "2", false, false⟩,
         ⟨"c", none, "3", false, false⟩, ⟨"d", none, "4", false, false⟩,
         ⟨"e", none, "5", false, false⟩]).map List.length = [3, 2]
    ∧ chunksSpec [⟨"x", none, "7", false, false⟩, ⟨"y", none, "8", false, false⟩,
         ⟨"z", none, "9", false, false⟩]
        = [[⟨"x", none, "7", false, false⟩, ⟨"y", none, "8", false, false⟩,
            ⟨"z", none, "9", false, false⟩]] :=
  ⟨(c1_row_packing ⟨"en", "-", none, []⟩ (fun _ _ => "")
      ⟨[], [], []⟩).2.2.2.2.2.1 _ (by decide),
   (c1_row_packing ⟨"en", "-", none, []⟩ (fun _ _ => "")
      ⟨[], [], []⟩).2.2.2.2.2.2.1 _ (by decide)⟩

/-- C7: a localized string has exactly one default value (one
`defaultValue` by construction), its translated list, when present, is
non-empty and has no entry whose value equals the default's value; and when
every per-language translation equals the default, the list is omitted
entirely. -/
theorem c7_localized_field (cfg : Config) (st : PassCtx) (value : String) :
    (∀ tv, (toGoogleLocalizedField cfg st (some value)).translatedValues = some tv →
        tv ≠ []
        ∧ ∀ e ∈ tv, e.value ≠ (toGoogleLocalizedField cfg st (some value)).defaultValue.value)
    ∧ ((∀ lang ∈ st.strings.map Prod.fst,
          (getString cfg st lang (some value)).value
            = (getString cfg st (defaultLanguageOf cfg st) (some value)).value) →
        (toGoogleLocalizedField cfg st (some value)).translatedValues = none) := by
  constructor
  · intro tv htv
    simp only [toGoogleLocalizedField] at htv ⊢
    split at htv
    case isTrue h =>
      cases htv
      constructor
      · intro hnil
        rw [hnil] at h
        simp at h
      · intro e he
        have := (List.mem_filter.mp he).2
        simpa using this
    case isFalse h =>
      cases htv
  · intro hall
    simp only [toGoogleLocalizedField]
    have hfil : ((st.strings.map fun p => getString cfg st p.1 (some value)).filter
        fun f => f.value ≠ (getString cfg st (defaultLanguageOf cfg st) (some value)).value)
        = [] := by
      rw [List.filter_eq_nil_iff]
      intro a ha
      obtain ⟨p, hp, rfl⟩ := List.mem_map.mp ha
      have := hall p.1 (List.mem_map_of_mem _ hp)
      simp [this]
    rw [hfil]
    simp

/-- Witness for C7: with an en default of Gate and a fr override Porte the
list is the single differing entry, and with the override equal to the
default it is omitted. -/
theorem c7_localized_field_witness :
    (([⟨"fr", "Porte"⟩] : List TranslatedString) ≠ []
      ∧ ∀ e ∈ ([⟨"fr", "Porte"⟩] : List TranslatedString),
          e.value ≠ (toGoogleLocalizedField ⟨"en", "-", none, []⟩
            ⟨[("en", [("Gate", "Gate")]), ("fr", [("Gate", "Porte")])], [], []⟩
            (some "Gate")).defaultValue.value)
    ∧ (toGoogleLocalizedField ⟨"en", "-", none, []⟩
        ⟨[("en", [("Gate", "Gate")]), ("fr", [("Gate", "Gate")])], [], []⟩
        (some "Gate")).translatedValues = none :=
  ⟨(c7_localized_field ⟨"en", "-", none, []⟩
      ⟨[("en", [("Gate", "Gate")]), ("fr", [("Gate", "Porte")])], [], []⟩ "Gate").1
      [⟨"fr", "Porte"⟩] (by decide),
   (c7_localized_field ⟨"en", "-", none, []⟩
      ⟨[("en", [("Gate", "Gate")]), ("fr", [("Gate", "Gate")])], [], []⟩ "Gate").2
      (by decide)⟩

/-- C9: the Generic variant's encode first moves the entire back content
into the front content as one additional final row (dropping empty rows)
and empties the back content; hence the produced object JSON never carries
an infoModuleData entry, and every former back-content item is emitted as a
free-text module (and, being front content now, may occupy card template
rows). -/
theorem c9_generic_back_content (cfg : Config)
    (fmt : ContentField → String → String) (st : PassCtx) :
    (genericToGoogle cfg fmt st).infoModuleData = none
    ∧ (∀ f ∈ st.backContent,
        ∃ m ∈ (genericToGoogle cfg fmt st).textModulesData, m.id = f.key)
    ∧ (st.backContent ≠ [] →
        ((st.frontContent ++ [st.backContent]).filter
            (fun row => row.length > 0)).getLast? = some st.backContent)
    ∧ genericToGoogle cfg fmt st
        = toGoogleBase cfg fmt
            { strings := st.strings
              frontContent :=
                (st.frontContent ++ [st.backContent]).filter fun row => row.length > 0
              backContent := [] } := by
  have hne : ∀ hb : st.backContent ≠ [], st.backContent.length > 0 := by
    intro hb
    cases hbc : st.backContent
    · exact absurd hbc hb
    · simp
  refine ⟨?_, ?_, ?_, rfl⟩
  · simp [genericToGoogle, toGoogleBase]
  · intro f hf
    have hb : st.backContent ≠ [] := by
      intro h
      rw [h] at hf
      simp at hf
    have hmem : f ∈ ((st.frontContent ++ [st.backContent]).filter
        fun row => row.length > 0).flatten := by
      apply List.mem_flatten.mpr
      refine ⟨st.backContent, ?_, hf⟩
      apply List.mem_filter.mpr
      exact ⟨List.mem_append_right _ (by simp), by simpa using hne hb⟩
    simp only [genericToGoogle, toGoogleBase]
    exact ⟨_, List.mem_map_of_mem _ hmem, rfl⟩
  · intro hb
    have hfil : List.filter (fun row => decide (row.length > 0)) [st.backContent]
        = [st.backContent] := by
      rw [List.filter_cons]
      simp [hne hb]
    rw [List.filter_append, hfil, List.getLast?_append_of_ne_nil _ (by simp)]
    simp

/-- Witness for C9 at a pass with one front row and two back items. -/
theorem c9_generic_back_content_witness :
    (genericToGoogle ⟨"en", "-", none, []⟩ (fun _ _ => "")
        ⟨[], [[⟨"a", none, "1", false, false⟩]],
         [⟨"g", some "G", "7", false, false⟩, ⟨"h", some "H", "8", false, false⟩]⟩).infoModuleData
        = none
    ∧ ∃ m ∈ (genericToGoogle ⟨"en", "-", none, []⟩ (fun _ _ => "")
        ⟨[], [[⟨"a", none, "1", false, false⟩]],
         [⟨"g", some "G", "7", false, false⟩,
          ⟨"h", some "H", "8", false, false⟩]⟩).textModulesData, m.id = "g" :=
  ⟨(c9_generic_back_content ⟨"en", "-", none, []⟩ (fun _ _ => "")
      ⟨[], [[⟨"a", none, "1", false, false⟩]],
       [⟨"g", some "G", "7", false, false⟩, ⟨"h", some "H", "8", false, false⟩]⟩).1,
   (c9_generic_back_content ⟨"en", "-", none, []⟩ (fun _ _ => "")
      ⟨[], [[⟨"a", none, "1", false, false⟩]],
       [⟨"g", some "G", "7", false, false⟩, ⟨"h", some "H", "8", false, false⟩]⟩).2.1
      ⟨"g", some "G", "7", false, false⟩ (by decide)⟩

/-- Counterexample for C2: hint matching compares the configured archive
field name against the field's key, not its label.  With a single front
field whose label is the configured name but whose key is not, the first
call removes nothing and returns undefined, although a field labelled with
the configured name is present. -/
theorem c2_hint_counterexample :
    (⟨"k1", some "F", "v", false, false⟩ : ContentField).label = some "F"
    ∧ alookup "h" [("h", "F")] = some "F"
    ∧ (hintedPkPassField [("h", "F")] "h"
        ⟨[[⟨"k1", some "F", "v", false, false⟩]], [], []⟩).1 = none
    ∧ (hintedPkPassField [("h", "F")] "h"
        ⟨[[⟨"k1", some "F", "v", false, false⟩]], [], []⟩).2.frontContent
        = [[⟨"k1", some "F", "v", false, false⟩]] := by decide

/-- C2 (amended): for every decoded pass and hint names mapped to the
archive field name F, when the cache has no entry for F and exactly one
content field's key equals F, the first call finds that field (the first
such in front-then-back order), removes it from the front/back content
exactly once (preserving everything else in order), and caches it; a
subsequent call with any hint mapped to F returns the identical cached
field and leaves the state untouched, without re-scanning. -/
theorem c2_hint_resolution (hints : List (String × String)) (n1 n2 F : String)
    (st : HintPass)
    (h1 : alookup n1 hints = some F) (h2 : alookup n2 hints = some F)
    (hcache : alookup (some F) st.hinted = none)
    (huniq : ((st.frontContent.flatten ++ st.backContent).filter
        (hintMatches (some F))).length = 1) :
    ∃ f : ContentField,
      (st.frontContent.flatten ++ st.backContent).find? (hintMatches (some F)) = some f
      ∧ (hintedPkPassField hints n1 st).1 = some f
      ∧ ((hintedPkPassField hints n1 st).2.frontContent.flatten
          ++ (hintedPkPassField hints n1 st).2.backContent)
          = (st.frontContent.flatten ++ st.backContent).filter
              (fun g => !hintMatches (some F) g)
      ∧ (hintedPkPassField hints n2 (hintedPkPassField hints n1 st).2).1 = some f
      ∧ (hintedPkPassField hints n2 (hintedPkPassField hints n1 st).2).2
          = (hintedPkPassField hints n1 st).2 := by
  obtain ⟨f, hf⟩ : ∃ f, (st.frontContent.flatten ++ st.backContent).filter
      (hintMatches (some F)) = [f] := by
    cases hfl : (st.frontContent.flatten ++ st.backContent).filter
        (hintMatches (some F)) with
    | nil => rw [hfl] at huniq; simp at huniq
    | cons a t =>
      rw [hfl] at huniq
      simp only [List.length_cons, Nat.add_left_eq_self, List.length_eq_zero] at huniq
      exact ⟨a, by rw [huniq]⟩
  have hfind : (st.frontContent.flatten ++ st.backContent).find?
      (hintMatches (some F)) = some f := by
    rw [find?_eq_head?_filter, hf]
    rfl
  have hcall1 : hintedPkPassField hints n1 st
      = (some f,
         { frontContent :=
             (st.frontContent.map fun row =>
               row.filter fun g => !hintMatches (some F) g).filter
               fun row => row.length > 0
           backContent := st.backContent.filter fun g => !hintMatches (some F) g
           hinted := st.hinted ++ [(some F, f)] }) := by
    rw [hintedPkPassField]
    simp only [h1, hcache]
    rw [hf]
    rfl
  have hflat : ((hintedPkPassField hints n1 st).2.frontContent.flatten
      ++ (hintedPkPassField hints n1 st).2.backContent)
      = (st.frontContent.flatten ++ st.backContent).filter
          (fun g => !hintMatches (some F) g) := by
    rw [hcall1]
    simp only
    rw [flatten_filter_nonempty, flatten_map_filter, List.filter_append]
  have hcall2 : hintedPkPassField hints n2 (hintedPkPassField hints n1 st).2
      = (some f, (hintedPkPassField hints n1 st).2) := by
    rw [hintedPkPassField]
    simp only [h2, hcall1]
    rw [alookup_append_of_none (some F) st.hinted _ hcache]
    have hone : alookup (some F) [(some F, f)] = some f := by
      rw [alookup]
      simp
    rw [hone]
  exact ⟨f, hfind, by rw [hcall1], hflat, by rw [hcall2], by rw [hcall2]⟩

/-- Witness for C2: two hints mapped to F, one matching field with key F;
both calls return it and the second leaves the state unchanged. -/
theorem c2_hint_resolution_witness :
    ∃ f : ContentField,
      (hintedPkPassField [("h", "F"), ("h2", "F")] "h"
          ⟨[[⟨"k1", some "L1", "v1", false, false⟩, ⟨"F", some "L2", "v2", false, false⟩]],
           [], []⟩).1 = some f
      ∧ (hintedPkPassField [("h", "F"), ("h2", "F")] "h2"
          (hintedPkPassField [("h", "F"), ("h2", "F")] "h"
            ⟨[[⟨"k1", some "L1", "v1", false, false⟩, ⟨"F", some "L2", "v2", false, false⟩]],
             [], []⟩).2).1 = some f := by
  obtain ⟨f, _, hr1, _, hr2, _⟩ :=
    c2_hint_resolution [("h", "F"), ("h2", "F")] "h" "h2" "F"
      ⟨[[⟨"k1", some "L1", "v1", false, false⟩, ⟨"F", some "L2", "v2", false, false⟩]],
       [], []⟩ (by decide) (by decide) (by decide) (by decide)
  exact ⟨f, hr1, hr2⟩

/-- C3: converting an archive pass to a wallet save link uses the token
over the full payload directly when it is at most 1800 characters; when it
is longer, the class create call is issued, the class is removed, and
encoding is retried; when the class-stripped token is still longer than
1800, the object create call is issued, the object is reduced to its id,
and the final token is encoded with no size check — and in every case,
whatever the outcome of the two remote calls (their failures are only
logged), a token is produced from local data. -/
theorem c3_dispatch_fallback (sign : GPayload → Str) (classOk objOk : Bool)
    (gp : GPayload) :
    ((sign gp).length ≤ 1800 →
      pkPassToGoogleToken sign classOk objOk gp = .ok ⟨sign gp, [], []⟩)
    ∧ ((sign gp).length > 1800 →
        (sign { gp with classes := none }).length ≤ 1800 →
        pkPassToGoogleToken sign classOk objOk gp
          = .ok ⟨sign { gp with classes := none },
                 [.createClass gp.classes],
                 [.jwtTooLarge (sign gp).length]
                   ++ if classOk then [] else [.classCreateError]⟩)
    ∧ ((sign gp).length > 1800 →
        (sign { gp with classes := none }).length > 1800 →
        pkPassToGoogleToken sign classOk objOk gp
          = .ok ⟨sign { classes := none, object := stripToId gp.object },
                 [.createClass gp.classes, .createObject gp.object],
                 (([.jwtTooLarge (sign gp).length]
                   ++ if classOk then [] else [.classCreateError])
                   ++ [.jwtTooLarge (sign { gp with classes := none }).length])
                   ++ if objOk then [] else [.objectCreateError]⟩)
    ∧ ∃ o : ConvertOutcome, pkPassToGoogleToken sign classOk objOk gp = .ok o := by
  have hok : ∀ p : GPayload, (sign p).length ≤ 1800 →
      encodeJwt sign p true = .ok (sign p) := by
    intro p h
    rw [encodeJwt]
    simp [show ¬(sign p).length > 1800 by omega]
  have herr : ∀ p : GPayload, (sign p).length > 1800 →
      encodeJwt sign p true = .error (sign p).length := by
    intro p h
    rw [encodeJwt]
    simp [h]
  have hA : (sign gp).length ≤ 1800 →
      pkPassToGoogleToken sign classOk objOk gp = .ok ⟨sign gp, [], []⟩ := by
    intro h
    simp only [pkPassToGoogleToken, hok gp h]
  have hB : (sign gp).length > 1800 →
      (sign { gp with classes := none }).length ≤ 1800 →
      pkPassToGoogleToken sign classOk objOk gp
        = .ok ⟨sign { gp with classes := none },
               [.createClass gp.classes],
               [.jwtTooLarge (sign gp).length]
                 ++ if classOk then [] else [.classCreateError]⟩ := by
    intro h1 h2
    simp only [pkPassToGoogleToken, herr gp h1, hok _ h2]
  have hC : (sign gp).length > 1800 →
      (sign { gp with classes := none }).length > 1800 →
      pkPassToGoogleToken sign classOk objOk gp
        = .ok ⟨sign { classes := none, object := stripToId gp.object },
               [.createClass gp.classes, .createObject gp.object],
               (([.jwtTooLarge (sign gp).length]
                 ++ if classOk then [] else [.classCreateError])
                 ++ [.jwtTooLarge (sign { gp with classes := none }).length])
                 ++ if objOk then [] else [.objectCreateError]⟩ := by
    intro h1 h2
    simp only [pkPassToGoogleToken, herr gp h1, herr _ h2]
    rfl
  refine ⟨hA, hB, hC, ?_⟩
  by_cases h1 : (sign gp).length ≤ 1800
  · exact ⟨_, hA h1⟩
  · by_cases h2 : (sign { gp with classes := none }).length ≤ 1800
    · exact ⟨_, hB (by omega) h2⟩
    · exact ⟨_, hC (by omega) (by omega)⟩

set_option maxRecDepth 8000 in
/-- Witness for C3 on the full fallback path: the full and class-stripped
tokens are over the limit, both remote calls fail, and the final id-only
token (itself over 1800 characters, since the last encode skips the size
check) is still produced. -/
theorem c3_dispatch_fallback_witness :
    pkPassToGoogleToken
      (fun p => if p.classes.isSome then List.replicate 2000 'a'
        else if p.object.rest ≠ [] then List.replicate 1900 'b'
        else List.replicate 1850 'c')
      false false
      ⟨some ⟨[("x", "y")]⟩, ⟨"obj1", [("k", "v")]⟩⟩
      = .ok ⟨List.replicate 1850 'c',
             [.createClass (some ⟨[("x", "y")]⟩), .createObject ⟨"obj1", [("k", "v")]⟩],
             [.jwtTooLarge 2000, .classCreateError, .jwtTooLarge 1900,
              .objectCreateError]⟩ := by
  rw [(c3_dispatch_fallback
    (fun p => if p.classes.isSome then List.replicate 2000 'a'
      else if p.object.rest ≠ [] then List.replicate 1900 'b'
      else List.replicate 1850 'c')
    false false ⟨some ⟨[("x", "y")]⟩, ⟨"obj1", [("k", "v")]⟩⟩).2.2.1
    (by simp) (by simp)]
  simp [stripToId]

/-- Counterexample for C6: the table mapping the single-colon key to the
value v satisfies the claim's conditions (no double quote, hence no
quote-delimited separator text, and no newline in keys or values), yet
export followed by parse loses the entry entirely: the `":"`-to-`" = "`
rewrite consumes the quoted colon key. -/
theorem c6_lproj_counterexample :
    (∀ c ∈ ([':'] : Str), c ≠ '"' ∧ c ≠ '\n')
    ∧ (∀ c ∈ (['v'] : Str), c ≠ '"' ∧ c ≠ '\n')
    ∧ lprojExport [([':'], ['v'])]
        = ['"', ' ', '=', ' ', '"', ':', '"', 'v', '"', ';']
    ∧ lprojParse (lprojExport [([':'], ['v'])]) = []
    ∧ ([] : List (Str × Str)) ≠ [([':'], ['v'])] := by
  have hexp : lprojExport [([':'], ['v'])]
      = ['"', ' ', '=', ' ', '"', ':', '"', 'v', '"', ';'] := by
    simp [lprojExport, jsonStringifyObj, jsonQuote, jsonEscapeChar, List.intercalate,
      replaceAll]
  refine ⟨by decide, by decide, hexp, ?_, by decide⟩
  rw [hexp]
  simp [lprojParse, stripC, stripInStr, splitOnStr, dropThroughFirstQuote,
    removeFirstNewline, List.findIdx?]

/-- C6 (amended): for every localization table whose keys and values contain
no double quote, no backslash and no control character (so in particular no
newline and no quote-delimited separator text), whose keys are distinct,
where no key is the single character colon, and where no key or value
begins with a comma or semicolon, exporting to the .lproj pass.strings text
and parsing the result returns the table unchanged. -/
theorem c6_lproj_roundtrip (entries : List (Str × Str))
    (hgood : ∀ e ∈ entries, goodEntry e)
    (hnodup : (entries.map Prod.fst).Nodup) :
    lprojParse (lprojExport entries) = entries := by
  cases entries with
  | nil =>
    have hexp : lprojExport [] = [';'] := by
      simp [lprojExport, jsonStringifyObj, List.intercalate, replaceAll]
    rw [hexp]
    simp [lprojParse, stripC, splitOnStr, dropThroughFirstQuote,
      removeFirstNewline, List.findIdx?]
  | cons e es =>
    rw [lprojExport_closed _ hgood, lprojParse_closed e es hgood]

/-- Witness for C6: the Gate-to-Porte table survives the round-trip. -/
theorem c6_lproj_roundtrip_witness :
    lprojParse (lprojExport [("Gate".data, "Porte".data)])
      = [("Gate".data, "Porte".data)] :=
  c6_lproj_roundtrip [("Gate".data, "Porte".data)] (by decide) (by decide)

end PassConv
